import Mathlib

set_option linter.unusedVariables false

/- Shallow embedding of the two scripts of the `outage-data-ua` repository:
   `scripts/update-telegram-images.mjs` (Telegram message updater) and the
   Playwright region fetcher (`fetchWithRetry` / `isSuspectHtml` / region loop).

   JavaScript values stored in the persisted message map are modelled by the
   `Json` inductive; JS truthiness by `jsTruthy`; JS objects by association
   lists in insertion order (the integer-like-key reordering of JS objects is
   not modelled: the map file format only uses single-key objects, for which
   the two agree).  Network responses and the wall clock are modelled by
   explicit outcome/time parameters threaded through the definitions. -/

inductive Json where
  | null : Json
  | bool (b : Bool) : Json
  | num (n : Int) : Json
  | str (s : String) : Json
  | arr (xs : List Json) : Json
  | obj (fields : List (String × Json)) : Json

mutual

/-- Structural equality of JSON values. -/
def jeq : Json → Json → Bool
  | .null, .null => true
  | .bool a, .bool b => a = b
  | .num a, .num b => a = b
  | .str a, .str b => a = b
  | .arr a, .arr b => jeqList a b
  | .obj a, .obj b => jeqFields a b
  | _, _ => false

/-- Structural equality of JSON value lists. -/
def jeqList : List Json → List Json → Bool
  | [], [] => true
  | x :: xs, y :: ys => jeq x y && jeqList xs ys
  | _, _ => false

/-- Structural equality of JSON object field lists. -/
def jeqFields : List (String × Json) → List (String × Json) → Bool
  | [], [] => true
  | (k1, v1) :: xs, (k2, v2) :: ys => (k1 = k2 : Bool) && jeq v1 v2 && jeqFields xs ys
  | _, _ => false

end

mutual

theorem jeq_iff : ∀ a b : Json, jeq a b = true ↔ a = b
  | .arr a, .arr b => by
    simpa [jeq] using jeqList_iff a b
  | .obj a, .obj b => by
    simpa [jeq] using jeqFields_iff a b
  | .null, .null => by simp [jeq]
  | .null, .bool _ => by simp [jeq]
  | .null, .num _ => by simp [jeq]
  | .null, .str _ => by simp [jeq]
  | .null, .arr _ => by simp [jeq]
  | .null, .obj _ => by simp [jeq]
  | .bool _, .null => by simp [jeq]
  | .bool _, .bool _ => by simp [jeq]
  | .bool _, .num _ => by simp [jeq]
  | .bool _, .str _ => by simp [jeq]
  | .bool _, .arr _ => by simp [jeq]
  | .bool _, .obj _ => by simp [jeq]
  | .num _, .null => by simp [jeq]
  | .num _, .bool _ => by simp [jeq]
  | .num _, .num _ => by simp [jeq]
  | .num _, .str _ => by simp [jeq]
  | .num _, .arr _ => by simp [jeq]
  | .num _, .obj _ => by simp [jeq]
  | .str _, .null => by simp [jeq]
  | .str _, .bool _ => by simp [jeq]
  | .str _, .num _ => by simp [jeq]
  | .str _, .str _ => by simp [jeq]
  | .str _, .arr _ => by simp [jeq]
  | .str _, .obj _ => by simp [jeq]
  | .arr _, .null => by simp [jeq]
  | .arr _, .bool _ => by simp [jeq]
  | .arr _, .num _ => by simp [jeq]
  | .arr _, .str _ => by simp [jeq]
  | .arr _, .obj _ => by simp [jeq]
  | .obj _, .null => by simp [jeq]
  | .obj _, .bool _ => by simp [jeq]
  | .obj _, .num _ => by simp [jeq]
  | .obj _, .str _ => by simp [jeq]
  | .obj _, .arr _ => by simp [jeq]

theorem jeqList_iff : ∀ a b : List Json, jeqList a b = true ↔ a = b
  | [], [] => by simp [jeqList]
  | x :: xs, y :: ys => by
    simp [jeqList, Bool.and_eq_true, jeq_iff x y, jeqList_iff xs ys]
  | [], _ :: _ => by simp [jeqList]
  | _ :: _, [] => by simp [jeqList]

theorem jeqFields_iff : ∀ a b : List (String × Json), jeqFields a b = true ↔ a = b
  | [], [] => by simp [jeqFields]
  | (k1, v1) :: xs, (k2, v2) :: ys => by
    simp [jeqFields, Bool.and_eq_true, jeq_iff v1 v2, jeqFields_iff xs ys, and_assoc]
  | [], _ :: _ => by simp [jeqFields]
  | _ :: _, [] => by simp [jeqFields]

end

instance : DecidableEq Json := fun a b => decidable_of_iff (jeq a b = true) (jeq_iff a b)

/-- JS truthiness of a JSON value (`NaN` does not arise: `Json.num` is exact). -/
def jsTruthy : Json → Bool
  | .null => false
  | .bool b => b
  | .num n => n ≠ 0
  | .str s => s ≠ ""
  | .arr _ => true
  | .obj _ => true

/-- The in-memory message map `chat_id -> value` (a JS object in the script),
modelled as an association list in insertion order. -/
abbrev MessageMap := List (String × Json)

/-- JS property read `m[k]` on an object modelled as an association list. -/
def jsLookup : MessageMap → String → Option Json
  | [], _ => none
  | (k', v') :: rest, k => if k' = k then some v' else jsLookup rest k

/-- JS property write `m[k] = v`: update in place if the key exists
(keeping its position), otherwise append at the end. -/
def jsSetKey : MessageMap → String → Json → MessageMap
  | [], k, v => [(k, v)]
  | (k', v') :: rest, k, v =>
    if k' = k then (k, v) :: rest else (k', v') :: jsSetKey rest k v

/-- JS property read `j.k`: a field of an object, `undefined` (none) otherwise
(property access on primitives yields `undefined`; reads on `null` are guarded
at each use site the way the script guards them). -/
def jsGetField : Json → String → Option Json
  | .obj fields, k => jsLookup fields k
  | _, _ => none

/-- JS property write `j.k = v`: on an object, set the field; on any other
value a property assignment is a silent no-op (sloppy mode). -/
def jsSetField : Json → String → Json → Json
  | .obj fields, k, v => .obj (jsSetKey fields k v)
  | j, _, _ => j

/-- Does the character list start with the given pattern? -/
def startsWithL : List Char → List Char → Bool
  | _, [] => true
  | [], _ :: _ => false
  | c :: cs, p :: ps => (c = p) && startsWithL cs ps

/-- Does the character list contain the pattern as a contiguous run? -/
def containsSubL (pat : List Char) : List Char → Bool
  | [] => startsWithL [] pat
  | c :: cs => startsWithL (c :: cs) pat || containsSubL pat cs

/-- JS `s.includes(pat)`. -/
def jsIncludes (s pat : String) : Bool := containsSubL pat.data s.data

/-- First own key of a JS value together with its value, as used by
`const [k] = Object.keys(item)` in `loadMessageMap`: objects yield their first
field, non-empty arrays the index key `"0"`, everything else has no keys. -/
def jsFirstKeyVal : Json → Option (String × Json)
  | .obj [] => none
  | .obj ((k, v) :: _) => some (k, v)
  | .arr [] => none
  | .arr (x :: _) => some ("0", x)
  | _ => none

/-- View of the persisted map file as `loadMessageMap` distinguishes it: the
file may be missing, trim to the empty string, fail `JSON.parse` (or any other
read exception), or parse to a JSON value. -/
inductive MapFileView where
  | missing : MapFileView
  | emptyText : MapFileView
  | unparsable : MapFileView
  | parsed (j : Json) : MapFileView

/-- One iteration of the load loop: for `item && typeof item === 'object'`,
take the first own key `k` and, when `k` is truthy, do `map[k] = item[k]`. -/
def loadItem (map : MessageMap) (item : Json) : MessageMap :=
  match jsFirstKeyVal item with
  | some (k, v) => if k ≠ "" then jsSetKey map k v else map
  | none => map

/-- `loadMessageMap`: an empty map for a missing/blank/unreadable file or a
non-array payload; for an array, fold the items into a fresh object. -/
def loadMessageMap : MapFileView → MessageMap
  | .missing => []
  | .emptyText => []
  | .unparsable => []
  | .parsed (.arr items) => items.foldl loadItem []
  | .parsed _ => []

/-- Lexicographic (code-point) comparison of character lists. -/
def charListLe : List Char → List Char → Bool
  | [], _ => true
  | _ :: _, [] => false
  | a :: as, b :: bs => if a = b then charListLe as bs else decide (a < b)

/-- The comparator of `saveMessageMap`'s key sort
(`(a, b) => a.localeCompare(b)`), with `localeCompare` modelled as code-point
lexicographic comparison. -/
def strLe (a b : String) : Bool := charListLe a.data b.data

/-- Key order used by `saveMessageMap`:
`Object.keys(map).sort((a, b) => a.localeCompare(b))`. -/
def sortedKeys (m : MessageMap) : List String :=
  List.insertionSort (fun a b : String => strLe a b = true) (m.map Prod.fst)

/-- One persisted record `{ message_id: map[k].message_id }`; `JSON.stringify`
drops a field whose value is `undefined`, so a value without `message_id`
serializes as an empty object. -/
def saveRecordJson (v : Json) : Json :=
  match jsGetField v "message_id" with
  | some mid => Json.obj [("message_id", mid)]
  | none => Json.obj []

/-- `saveMessageMap`: serialize the whole map as an array of single-key
objects with keys sorted.  Reading `.message_id` off a `null` value throws,
which the catch converts into a failed save (`none`: nothing written). -/
def saveMessageMap (m : MessageMap) : Option Json :=
  if m.any (fun kv => kv.2 = Json.null) then none
  else some (Json.arr ((sortedKeys m).map (fun k =>
    Json.obj [(k, saveRecordJson ((jsLookup m k).getD Json.null))])))

/-- Tuning knobs of the fetch pipeline (`MAX_FETCH_RETRY`, `MIN_HTML_BYTES`,
`FETCH_BACKOFF_MS`; defaults 3 / 1500 / 2000). -/
structure FetchCfg where
  maxRetry : Nat
  minBytes : Nat
  backoffMs : Nat
  deriving DecidableEq

/-- `isSuspectHtml`: falsy (empty) content is suspect; otherwise content is
suspect when shorter than the minimum or missing either required marker. -/
def isSuspectHtml (minBytes : Nat) (html : String) : Bool :=
  if html = "" then true
  else
    let hasMarkers := jsIncludes html "DisconSchedule.fact" &&
      jsIncludes html "DisconSchedule.preset"
    decide (html.length < minBytes) || !hasMarkers

/-- Outcome of one navigation attempt: the rendered markup from
`page.content()`, or a thrown navigation/network error. -/
inductive AttemptOutcome where
  | got (html : String) : AttemptOutcome
  | thrown : AttemptOutcome

/-- The record `fetchWithRetry` resolves with. -/
structure FetchRes where
  ok : Bool
  html : String
  bytes : Nat
  attempt : Nat
  deriving DecidableEq

/-- Observable steps of the retry loop: an attempt, or a backoff sleep of the
given duration. -/
inductive FetchEvent where
  | attemptEv (n : Nat) : FetchEvent
  | sleptEv (ms : Nat) : FetchEvent
  deriving DecidableEq

/-- The retry loop of `fetchWithRetry`, recursing on the number of remaining
attempts; `attempt` is the 1-based loop counter and `lastHtml` the most
recently captured markup.  `outcomes n` is what attempt `n` observes and
`jitter n` models `Math.floor(Math.random() * 400)` on attempt `n`. -/
def fetchLoop (cfg : FetchCfg) (outcomes : Nat → AttemptOutcome) (jitter : Nat → Nat) :
    Nat → Nat → String → FetchRes × List FetchEvent
  | 0, _, lastHtml =>
    ({ ok := false, html := lastHtml, bytes := lastHtml.length, attempt := cfg.maxRetry }, [])
  | remaining + 1, attempt, lastHtml =>
    match outcomes attempt with
    | .got html =>
      if isSuspectHtml cfg.minBytes html = false then
        ({ ok := true, html := html, bytes := html.length, attempt := attempt },
          [.attemptEv attempt])
      else
        let evs := if attempt < cfg.maxRetry then
            [FetchEvent.sleptEv (cfg.backoffMs * attempt + jitter attempt)]
          else []
        let rest := fetchLoop cfg outcomes jitter remaining (attempt + 1) html
        (rest.1, .attemptEv attempt :: (evs ++ rest.2))
    | .thrown =>
      let evs := if attempt < cfg.maxRetry then
          [FetchEvent.sleptEv (cfg.backoffMs * attempt + jitter attempt)]
        else []
      let rest := fetchLoop cfg outcomes jitter remaining (attempt + 1) lastHtml
      (rest.1, .attemptEv attempt :: (evs ++ rest.2))

/-- `fetchWithRetry` for one source: run the loop from attempt 1 with an empty
`lastHtml`, allowing `cfg.maxRetry` attempts. -/
def fetchWithRetry (cfg : FetchCfg) (outcomes : Nat → AttemptOutcome) (jitter : Nat → Nat) :
    FetchRes × List FetchEvent :=
  fetchLoop cfg outcomes jitter cfg.maxRetry 1 ""

/-- Content the region loop writes to `outputs/<region>.html`: accepted HTML
as-is; otherwise `res.html || '<!-- empty -->'`. -/
def writtenHtml (res : FetchRes) : String :=
  if res.ok then res.html
  else if res.html = "" then "<!-- empty -->" else res.html

/-- `withTimestamp`: suffix the caption with the freshly formatted timestamp
line; a falsy (missing or empty) caption becomes just the timestamp line.
The `getTimestamp()` output is the `ts` parameter. -/
def withTimestamp (ts : String) (caption : Option String) : String :=
  match caption with
  | some c => if c = "" then "Оновлено: " ++ ts else c ++ "\n" ++ "Оновлено: " ++ ts
  | none => "Оновлено: " ++ ts

/-- Decimal digit rendered as a character. -/
def digitToChar (d : Nat) : Char := Char.ofNat (48 + d)

/-- Little-endian decimal digits of `n`, with explicit fuel (any fuel of at
least `n` gives all digits). -/
def decimalDigits : Nat → Nat → List Nat
  | 0, _ => []
  | _ + 1, 0 => []
  | fuel + 1, n + 1 => (n + 1) % 10 :: decimalDigits fuel ((n + 1) / 10)

/-- Decimal rendering of a natural number, modelling `Date.now().toString()`
and the template interpolation of the `cb` value. -/
def natToDecimal (n : Nat) : String :=
  if n = 0 then "0" else ⟨((decimalDigits n n).map digitToChar).reverse⟩

/-- A parsed URL restricted to what `cacheBustedUrl` touches: everything
before the query stays fixed, the query is a parameter list
(percent-encoding and fragments are not modelled; `cb` values are digits). -/
structure UrlModel where
  base : String
  params : List (String × String)
  deriving DecidableEq

/-- Drop every occurrence of a key from a parameter list. -/
def removeKey : List (String × String) → String → List (String × String)
  | [], _ => []
  | (k', v') :: rest, k =>
    if k' = k then removeKey rest k else (k', v') :: removeKey rest k

/-- `URLSearchParams.set`: overwrite the first occurrence of the key in place
and delete any later occurrences; append when the key is absent. -/
def setParam : List (String × String) → String → String → List (String × String)
  | [], k, v => [(k, v)]
  | (k', v') :: rest, k, v =>
    if k' = k then (k, v) :: removeKey rest k else (k', v') :: setParam rest k v

/-- Render a query parameter list as `k=v` pairs joined with `&`. -/
def renderParams : List (String × String) → String
  | [] => ""
  | [(k, v)] => k ++ "=" ++ v
  | (k, v) :: p :: rest => k ++ "=" ++ v ++ "&" ++ renderParams (p :: rest)

/-- `URL.toString()` over the model. -/
def urlToString (u : UrlModel) : String :=
  if u.params.isEmpty then u.base else u.base ++ "?" ++ renderParams u.params

/-- The `image_url` as `cacheBustedUrl` sees it: either a URL `new URL`
accepts, or a string it rejects (the catch branch then appends textually). -/
inductive UrlInput where
  | parsed (u : UrlModel) : UrlInput
  | unparsed (s : String) : UrlInput

/-- `cacheBustedUrl`: set the `cb` query parameter to `Date.now()` (the `now`
parameter); on a parse failure, append `?cb=`/`&cb=` to the raw string. -/
def cacheBustedUrl (now : Nat) : UrlInput → String
  | .parsed u => urlToString { u with params := setParam u.params "cb" (natToDecimal now) }
  | .unparsed s =>
    s ++ (if jsIncludes s "?" then "&" else "?") ++ "cb=" ++ natToDecimal now

/-- One configured chat target (`CHATS_JSON` element); absent fields are
`none`. -/
structure ChatTarget where
  chat_id : Option String
  image_url : Option String
  caption : Option String
  title : Option String
  deriving DecidableEq

/-- JS truthiness of an optional string field. -/
def optStrTruthy : Option String → Bool
  | none => false
  | some s => s ≠ ""

/-- JS truthiness of an optional JSON value (`undefined` is falsy). -/
def optJsonTruthy : Option Json → Bool
  | none => false
  | some v => jsTruthy v

/-- A Bot API response as the script reads it: `ok`, `error_code`,
`description`, and `result.message_id` (`none` when `result` is missing or
falsy or has no `message_id`). -/
structure ApiResponse where
  ok : Bool
  error_code : Option Int := none
  description : Option String := none
  result_message_id : Option Json := none
  deriving DecidableEq

/-- A remote call either yields a parsed response or throws (network error). -/
inductive NetOutcome where
  | resp (j : ApiResponse) : NetOutcome
  | netErr : NetOutcome
  deriving DecidableEq

/-- Remote outcomes scripted for one target: what `sendPhoto` would observe
(directly, or as the edit fallback) and what `editMessageMedia` would observe.
Pin outcomes need no scripting: `pinMessage`'s result is discarded. -/
structure TargetOutcome where
  sendOut : NetOutcome
  editOut : NetOutcome
  deriving DecidableEq

/-- Outbound Bot API calls in order; the pin id is the value passed to
`pinMessage`. -/
inductive ApiEvent where
  | sendCall (chat_id : String) : ApiEvent
  | editCall (chat_id : String) (message_id : Json) : ApiEvent
  | pinCall (chat_id : String) (message_id : Option Json) : ApiEvent
  deriving DecidableEq

/-- The chat an outbound call addresses. -/
def eventChat : ApiEvent → String
  | .sendCall c => c
  | .editCall c _ => c
  | .pinCall c _ => c

/-- The record pushed to `results` for one target. -/
structure CallResult where
  ok : Bool
  message_id : Option Json := none
  replaced : Bool := false
  not_modified : Bool := false
  reason : Option String := none
  deriving DecidableEq

/-- `sendPhoto`: POST, then on `ok` read `result.message_id`, pin it and
return it; non-`ok` responses and network errors yield a failed result. -/
def sendPhotoM (cid : String) (out : NetOutcome) : CallResult × List ApiEvent :=
  match out with
  | .netErr => ({ ok := false }, [.sendCall cid])
  | .resp j =>
    if j.ok then
      ({ ok := true, message_id := j.result_message_id },
        [.sendCall cid, .pinCall cid j.result_message_id])
    else
      ({ ok := false }, [.sendCall cid])

/-- The `message is not modified` reclassification test in `editPhoto`:
`error_code === 400` and a string `description` containing the pattern. -/
def notModifiedResp (j : ApiResponse) : Bool :=
  decide (j.error_code = some 400) &&
    (match j.description with
     | some d => jsIncludes d "message is not modified"
     | none => false)

/-- `editPhoto`: edit the known message; `ok` → pin it; a not-modified 400 →
treated as success, still pinned; any other 400 → fall back to `sendPhoto`
and mark the result `replaced`; other failures and network errors fail. -/
def editPhotoM (cid : String) (known : Json) (editOut sendOut : NetOutcome) :
    CallResult × List ApiEvent :=
  match editOut with
  | .netErr => ({ ok := false }, [.editCall cid known])
  | .resp j =>
    if j.ok then
      ({ ok := true }, [.editCall cid known, .pinCall cid (some known)])
    else if notModifiedResp j then
      ({ ok := true, not_modified := true },
        [.editCall cid known, .pinCall cid (some known)])
    else if j.error_code = some 400 then
      let s := sendPhotoM cid sendOut
      ({ s.1 with replaced := true }, .editCall cid known :: s.2)
    else
      ({ ok := false }, [.editCall cid known])

/-- The guard `if (!messageMap[chatId]) messageMap[chatId] = {};` of
`setMessageId`. -/
def ensureSlot (m : MessageMap) (chatId : String) : MessageMap :=
  if optJsonTruthy (jsLookup m chatId) then m else jsSetKey m chatId (Json.obj [])

/-- `setMessageId`: ignore falsy ids; materialise an empty record object when
the slot is falsy; store the id and raise `mapDirty` exactly when the stored
`message_id` differs (JS strict `!==`, structural here since Bot API message
ids are numbers). -/
def setMessageIdM (m : MessageMap) (dirty : Bool) (chatId : String) (messageId : Json) :
    MessageMap × Bool :=
  if jsTruthy messageId = false then (m, dirty)
  else if jsGetField ((jsLookup (ensureSlot m chatId) chatId).getD Json.null) "message_id"
      = some messageId then
    (ensureSlot m chatId, dirty)
  else
    (jsSetKey (ensureSlot m chatId) chatId
      (jsSetField ((jsLookup (ensureSlot m chatId) chatId).getD Json.null)
        "message_id" messageId),
      true)

/-- `messageMap[c.chat_id]?.message_id`. -/
def knownOf (m : MessageMap) (cid : String) : Option Json :=
  (jsLookup m cid).bind (fun v => jsGetField v "message_id")

/-- State accumulated by the main loop, together with the observable outbound
call trace. -/
structure RunState where
  map : MessageMap
  dirty : Bool
  results : List CallResult
  trace : List ApiEvent

/-- One iteration of the main loop over `chats`. -/
def processTarget (st : RunState) (c : ChatTarget) (o : TargetOutcome) : RunState :=
  if (optStrTruthy c.chat_id && optStrTruthy c.image_url) = false then
    { st with results := st.results ++ [{ ok := false, reason := some "invalid-config" }] }
  else
    let cid := c.chat_id.getD ""
    let known := knownOf st.map cid
    if optJsonTruthy known = false then
      let r := sendPhotoM cid o.sendOut
      let md := if r.1.ok && optJsonTruthy r.1.message_id then
          setMessageIdM st.map st.dirty cid ((r.1.message_id).getD Json.null)
        else (st.map, st.dirty)
      { map := md.1, dirty := md.2, results := st.results ++ [r.1], trace := st.trace ++ r.2 }
    else
      let r := editPhotoM cid (known.getD Json.null) o.editOut o.sendOut
      let md := if r.1.ok && r.1.replaced && optJsonTruthy r.1.message_id then
          setMessageIdM st.map st.dirty cid ((r.1.message_id).getD Json.null)
        else (st.map, st.dirty)
      { map := md.1, dirty := md.2, results := st.results ++ [r.1], trace := st.trace ++ r.2 }

/-- The main loop over the remaining targets. -/
def runAll (st : RunState) : List (ChatTarget × TargetOutcome) → RunState
  | [] => st
  | (c, o) :: rest => runAll (processTarget st c o) rest

/-- Run start: the loaded map, a clear dirty flag, no results, no calls. -/
def initState (m0 : MessageMap) : RunState :=
  { map := m0, dirty := false, results := [], trace := [] }

/-- A whole run of the main loop from the loaded map. -/
def runChats (m0 : MessageMap) (items : List (ChatTarget × TargetOutcome)) : RunState :=
  runAll (initState m0) items

/-- The end-of-run write is attempted exactly when `mapDirty` is set. -/
def saveAttempted (st : RunState) : Bool := st.dirty

/-- `results.filter(r => !r.ok && r.reason !== 'invalid-config')`. -/
def runFailures (st : RunState) : List CallResult :=
  st.results.filter (fun r => !r.ok && !decide (r.reason = some "invalid-config"))

/-- Exit status of the run: `process.exit(10)` on genuine failures, success
(0) otherwise. -/
def runExitCode (st : RunState) : Nat :=
  if (runFailures st).length ≠ 0 then 10 else 0

/-! Basic lemmas about the JS object model. -/

theorem jsLookup_jsSetKey_self (m : MessageMap) (k : String) (v : Json) :
    jsLookup (jsSetKey m k v) k = some v := by
  induction m with
  | nil => simp [jsSetKey, jsLookup]
  | cons kv rest ih =>
    obtain ⟨k', v'⟩ := kv
    by_cases h : k' = k
    · subst h
      simp [jsSetKey, jsLookup]
    · simp [jsSetKey, jsLookup, h, ih]

theorem jsLookup_jsSetKey_ne (m : MessageMap) (k k' : String) (v : Json) (h : k' ≠ k) :
    jsLookup (jsSetKey m k v) k' = jsLookup m k' := by
  induction m with
  | nil =>
    simp only [jsSetKey, jsLookup]
    rw [if_neg (fun hh => h hh.symm)]
  | cons kv rest ih =>
    obtain ⟨k0, v0⟩ := kv
    by_cases hk : k0 = k
    · subst hk
      have hne : ¬k0 = k' := fun hh => h hh.symm
      simp [jsSetKey, jsLookup, hne]
    · by_cases hk' : k0 = k'
      · subst hk'
        simp [jsSetKey, jsLookup, hk]
      · simp [jsSetKey, jsLookup, hk, hk', ih]

theorem keys_jsSetKey (m : MessageMap) (k : String) (v : Json) :
    (jsSetKey m k v).map Prod.fst =
      if k ∈ m.map Prod.fst then m.map Prod.fst else m.map Prod.fst ++ [k] := by
  induction m with
  | nil => simp [jsSetKey]
  | cons kv rest ih =>
    obtain ⟨k0, v0⟩ := kv
    by_cases hk : k0 = k
    · subst hk
      simp [jsSetKey]
    · have hk' : ¬k = k0 := fun h => hk h.symm
      by_cases hmem : k ∈ rest.map Prod.fst
      · simp [jsSetKey, hk, ih, hmem, hk']
      · simp [jsSetKey, hk, ih, hmem, hk']

theorem mem_keys_jsSetKey (m : MessageMap) (k a : String) (v : Json) :
    a ∈ (jsSetKey m k v).map Prod.fst ↔ a ∈ m.map Prod.fst ∨ a = k := by
  rw [keys_jsSetKey]
  by_cases hmem : k ∈ m.map Prod.fst
  · rw [if_pos hmem]
    constructor
    · exact Or.inl
    · rintro (h | h)
      · exact h
      · exact h ▸ hmem
  · rw [if_neg hmem]
    simp [List.mem_append]

theorem mem_jsSetKey (m : MessageMap) (k : String) (v : Json) (kv : String × Json)
    (h : kv ∈ jsSetKey m k v) : kv ∈ m ∨ kv = (k, v) := by
  induction m with
  | nil => simpa [jsSetKey] using h
  | cons kv0 rest ih =>
    obtain ⟨k0, v0⟩ := kv0
    by_cases hk : k0 = k
    · subst hk
      simp [jsSetKey] at h
      rcases h with h | h
      · exact Or.inr (by simp [h])
      · exact Or.inl (List.mem_cons_of_mem _ h)
    · simp only [jsSetKey, if_neg hk, List.mem_cons] at h
      rcases h with h | h
      · exact Or.inl (by simp [h])
      · rcases ih h with h' | h'
        · exact Or.inl (List.mem_cons_of_mem _ h')
        · exact Or.inr h'

theorem nodup_keys_jsSetKey (m : MessageMap) (k : String) (v : Json)
    (h : (m.map Prod.fst).Nodup) : ((jsSetKey m k v).map Prod.fst).Nodup := by
  rw [keys_jsSetKey]
  by_cases hmem : k ∈ m.map Prod.fst
  · rwa [if_pos hmem]
  · rw [if_neg hmem, List.nodup_append]
    exact ⟨h, List.nodup_singleton _, by simpa using hmem⟩

theorem nodup_keys_loadItem (m : MessageMap) (item : Json)
    (h : (m.map Prod.fst).Nodup) : ((loadItem m item).map Prod.fst).Nodup := by
  unfold loadItem
  cases hfk : jsFirstKeyVal item with
  | none => exact h
  | some kv =>
    obtain ⟨k, v⟩ := kv
    by_cases hk : k ≠ ""
    · simpa [hk] using nodup_keys_jsSetKey m k v h
    · simpa [hk] using h

theorem nodup_keys_foldl_loadItem :
    ∀ (items : List Json) (m : MessageMap), (m.map Prod.fst).Nodup →
      ((items.foldl loadItem m).map Prod.fst).Nodup := by
  intro items
  induction items with
  | nil => exact fun m h => h
  | cons item rest ih =>
    intro m h
    exact ih (loadItem m item) (nodup_keys_loadItem m item h)

/-- C10: `loadMessageMap` is total and never raises: a missing file, blank
file, unparsable JSON, or a non-array payload all load as the empty map; an
object item contributes at most its first key; and the loaded map always has
at most one record per chat id. -/
theorem C10_loadMessageMap_total (view : MapFileView) :
    ((loadMessageMap view).map Prod.fst).Nodup ∧
    loadMessageMap .missing = [] ∧
    loadMessageMap .emptyText = [] ∧
    loadMessageMap .unparsable = [] ∧
    (∀ j : Json, (∀ items, j ≠ Json.arr items) → loadMessageMap (.parsed j) = []) ∧
    (∀ (m : MessageMap) (k : String) (v : Json) (rest : List (String × Json)),
      loadItem m (Json.obj ((k, v) :: rest)) = if k ≠ "" then jsSetKey m k v else m) := by
  refine ⟨?_, rfl, rfl, rfl, ?_, ?_⟩
  · cases view with
    | missing => simp [loadMessageMap]
    | emptyText => simp [loadMessageMap]
    | unparsable => simp [loadMessageMap]
    | parsed j =>
      cases j with
      | arr items => exact nodup_keys_foldl_loadItem items [] (by simp)
      | null => simp [loadMessageMap]
      | bool b => simp [loadMessageMap]
      | num n => simp [loadMessageMap]
      | str s => simp [loadMessageMap]
      | obj fields => simp [loadMessageMap]
  · intro j hj
    cases j with
    | arr items => exact absurd rfl (hj items)
    | null => rfl
    | bool b => rfl
    | num n => rfl
    | str s => rfl
    | obj fields => rfl
  · intro m k v rest
    rfl

/-- C3: the suspect-content classifier rejects exactly when the content is
shorter than the configured minimum or misses either required marker, and
accepts content that is long enough and carries both markers. -/
theorem C3_isSuspectHtml_iff (minBytes : Nat) (html : String) :
    isSuspectHtml minBytes html = true ↔
      (html.length < minBytes ∨
        ¬(jsIncludes html "DisconSchedule.fact" = true ∧
          jsIncludes html "DisconSchedule.preset" = true)) := by
  by_cases h : html = ""
  · subst h
    exact iff_of_true rfl (Or.inr (by decide))
  · simp only [isSuspectHtml, if_neg h, Bool.or_eq_true, decide_eq_true_eq,
      Bool.not_eq_true', Bool.and_eq_false_iff]
    constructor
    · rintro (h1 | h1 | h1)
      · exact Or.inl h1
      · exact Or.inr (fun hh => absurd h1 (by simp [hh.1]))
      · exact Or.inr (fun hh => absurd h1 (by simp [hh.2]))
    · rintro (h1 | h1)
      · exact Or.inl h1
      · rcases Bool.eq_false_or_eq_true (jsIncludes html "DisconSchedule.fact") with hf | hf
        · rcases Bool.eq_false_or_eq_true (jsIncludes html "DisconSchedule.preset") with hp | hp
          · exact absurd ⟨hf, hp⟩ h1
          · exact Or.inr (Or.inr hp)
        · exact Or.inr (Or.inl hf)

theorem runExitCode_eq_ten_iff (st : RunState) :
    runExitCode st = 10 ↔
      ∃ r ∈ st.results, r.ok = false ∧ r.reason ≠ some "invalid-config" := by
  have hmem : ∀ r : CallResult, r ∈ runFailures st ↔
      (r ∈ st.results ∧ (r.ok = false ∧ r.reason ≠ some "invalid-config")) := by
    intro r
    unfold runFailures
    rw [List.mem_filter]
    simp [Bool.and_eq_true, Bool.not_eq_true']
  have hne : runFailures st ≠ [] ↔ ∃ r, r ∈ runFailures st := by
    cases hr : runFailures st <;> simp
  unfold runExitCode
  by_cases hlen : (runFailures st).length ≠ 0
  · rw [if_pos hlen]
    have hne' : runFailures st ≠ [] := fun hh => hlen (by simp [hh])
    obtain ⟨r, hr⟩ := hne.mp hne'
    rw [hmem] at hr
    exact iff_of_true rfl ⟨r, hr.1, hr.2⟩
  · rw [if_neg hlen]
    push_neg at hlen
    have hnil : runFailures st = [] := List.length_eq_zero.mp hlen
    constructor
    · intro h10
      cases h10
    · rintro ⟨r, hr, hok, hreason⟩
      have : r ∈ runFailures st := (hmem r).mpr ⟨hr, hok, hreason⟩
      rw [hnil] at this
      cases this

/-- C8: the run exits with the failure code (10) exactly when some target
failed for a reason other than invalid configuration; invalid-configuration
skips append an `invalid-config` result and never change the exit status. -/
theorem C8_exit_status (m0 : MessageMap) (items : List (ChatTarget × TargetOutcome)) :
    (runExitCode (runChats m0 items) = 10 ↔
      ∃ r ∈ (runChats m0 items).results,
        r.ok = false ∧ r.reason ≠ some "invalid-config") ∧
    (∀ (st : RunState) (c : ChatTarget) (o : TargetOutcome),
      (optStrTruthy c.chat_id && optStrTruthy c.image_url) = false →
      (processTarget st c o).results
          = st.results ++ [{ ok := false, reason := some "invalid-config" }] ∧
      runExitCode (processTarget st c o) = runExitCode st) := by
  refine ⟨runExitCode_eq_ten_iff _, ?_⟩
  intro st c o h
  have hres : (processTarget st c o).results
      = st.results ++ [{ ok := false, reason := some "invalid-config" }] := by
    simp [processTarget, h]
  refine ⟨hres, ?_⟩
  unfold runExitCode runFailures
  rw [hres, List.filter_append]
  simp

/-- C7: an edit that fails with the content-unchanged pattern (error code 400
and a description containing the not-modified wording) is treated as success:
the result is ok and flagged `not_modified`, a pin is still attempted for the
existing message, and the map entry and dirty flag are untouched. -/
theorem C7_not_modified_treated_as_success (st : RunState) (c : ChatTarget)
    (o : TargetOutcome) (j : ApiResponse) (d : String)
    (hv : (optStrTruthy c.chat_id && optStrTruthy c.image_url) = true)
    (hk : optJsonTruthy (knownOf st.map (c.chat_id.getD "")) = true)
    (he : o.editOut = NetOutcome.resp j) (hok : j.ok = false)
    (hcode : j.error_code = some 400) (hdesc : j.description = some d)
    (hpat : jsIncludes d "message is not modified" = true) :
    processTarget st c o =
      { map := st.map, dirty := st.dirty,
        results := st.results ++ [{ ok := true, not_modified := true }],
        trace := st.trace ++
          [ApiEvent.editCall (c.chat_id.getD "")
              ((knownOf st.map (c.chat_id.getD "")).getD Json.null),
            ApiEvent.pinCall (c.chat_id.getD "")
              (some ((knownOf st.map (c.chat_id.getD "")).getD Json.null))] } := by
  have hnm : notModifiedResp j = true := by
    simp [notModifiedResp, hcode, hdesc, hpat]
  simp [processTarget, hv, hk, editPhotoM, he, hok, hnm]

theorem C7_witness :
    processTarget (initState [("c1", Json.obj [("message_id", Json.num 5)])])
        ⟨some "c1", some "https://img", some "cap", none⟩
        ⟨NetOutcome.netErr,
          NetOutcome.resp
            ⟨false, some 400, some "Bad Request: message is not modified", none⟩⟩
      = { map := [("c1", Json.obj [("message_id", Json.num 5)])], dirty := false,
          results := [{ ok := true, not_modified := true }],
          trace :=
            [ApiEvent.editCall "c1"
                ((knownOf [("c1", Json.obj [("message_id", Json.num 5)])] "c1").getD
                  Json.null),
              ApiEvent.pinCall "c1"
                (some ((knownOf [("c1", Json.obj [("message_id", Json.num 5)])] "c1").getD
                  Json.null))] } :=
  C7_not_modified_treated_as_success _ _ _
    ⟨false, some 400, some "Bad Request: message is not modified", none⟩
    "Bad Request: message is not modified"
    (by decide) (by decide) rfl rfl rfl rfl (by decide)

/-! Order properties of the save comparator. -/

theorem charListLe_total : ∀ as bs : List Char,
    charListLe as bs = true ∨ charListLe bs as = true
  | [], _ => Or.inl rfl
  | _ :: _, [] => Or.inr rfl
  | a :: as, b :: bs => by
    by_cases hab : a = b
    · subst hab
      rcases charListLe_total as bs with h | h
      · exact Or.inl (by simpa [charListLe] using h)
      · exact Or.inr (by simpa [charListLe] using h)
    · rcases lt_or_gt_of_ne hab with h | h
      · exact Or.inl (by simp [charListLe, hab, h])
      · have hba : ¬b = a := fun hh => hab hh.symm
        exact Or.inr (by simp [charListLe, hba, h])

theorem charListLe_trans : ∀ as bs cs : List Char,
    charListLe as bs = true → charListLe bs cs = true → charListLe as cs = true
  | [], _, _ => fun _ _ => rfl
  | _ :: _, [], _ => fun h _ => nomatch h
  | _ :: _, _ :: _, [] => fun _ h => nomatch h
  | a :: as, b :: bs, c :: cs => fun h1 h2 => by
    by_cases hab : a = b <;> by_cases hbc : b = c
    · subst hab; subst hbc
      simp only [charListLe, if_pos rfl] at h1 h2 ⊢
      exact charListLe_trans as bs cs h1 h2
    · subst hab
      simp [charListLe, hbc] at h2 ⊢
      simp [hbc, h2]
    · subst hbc
      simp [charListLe, hab] at h1 ⊢
      simp [hab, h1]
    · simp [charListLe, hab] at h1
      simp [charListLe, hbc] at h2
      have hac : a < c := lt_trans h1 h2
      simp [charListLe, ne_of_lt hac, hac]

theorem charListLe_antisymm : ∀ as bs : List Char,
    charListLe as bs = true → charListLe bs as = true → as = bs
  | [], [] => fun _ _ => rfl
  | [], _ :: _ => fun _ h => nomatch h
  | _ :: _, [] => fun h _ => nomatch h
  | a :: as, b :: bs => fun h1 h2 => by
    by_cases hab : a = b
    · subst hab
      simp only [charListLe, if_pos rfl] at h1 h2
      rw [charListLe_antisymm as bs h1 h2]
    · have hba : ¬b = a := fun hh => hab hh.symm
      simp [charListLe, hab] at h1
      simp [charListLe, hba] at h2
      exact absurd h2 (not_lt_of_gt h1)

theorem strLe_total (a b : String) : strLe a b = true ∨ strLe b a = true :=
  charListLe_total a.data b.data

theorem strLe_trans (a b c : String) (h1 : strLe a b = true) (h2 : strLe b c = true) :
    strLe a c = true :=
  charListLe_trans a.data b.data c.data h1 h2

theorem strLe_antisymm (a b : String) (h1 : strLe a b = true) (h2 : strLe b a = true) :
    a = b :=
  String.ext (charListLe_antisymm a.data b.data h1 h2)

instance : IsTotal String (fun a b => strLe a b = true) := ⟨strLe_total⟩

instance : IsTrans String (fun a b => strLe a b = true) := ⟨strLe_trans⟩

instance : IsTrans String (fun a b => strLe a b = true ∧ a ≠ b) :=
  ⟨fun a b c h1 h2 =>
    ⟨strLe_trans a b c h1.1 h2.1, fun hac => by
      subst hac
      exact h2.2 (strLe_antisymm b a h2.1 h1.1)⟩⟩

theorem jsSetKey_of_not_mem (m : MessageMap) (k : String) (v : Json)
    (h : k ∉ m.map Prod.fst) : jsSetKey m k v = m ++ [(k, v)] := by
  induction m with
  | nil => rfl
  | cons kv rest ih =>
    obtain ⟨k0, v0⟩ := kv
    simp only [List.map_cons, List.mem_cons] at h
    push_neg at h
    simp only [jsSetKey, if_neg (fun hh : k0 = k => h.1 hh.symm), List.cons_append]
    rw [ih h.2]

/-- The persisted-map JSON for a list of `(chat id, message id)` pairs: a JSON
array of single-key objects, each mapping the chat id to `{message_id}` (the
well-formed file shape of the C4 claim). -/
def wfMapJson (pairs : List (String × Int)) : Json :=
  Json.arr (pairs.map (fun kv =>
    Json.obj [(kv.1, Json.obj [("message_id", Json.num kv.2)])]))

/-- The in-memory map those pairs load to. -/
def wfMapRecords (pairs : List (String × Int)) : MessageMap :=
  pairs.map (fun kv => (kv.1, Json.obj [("message_id", Json.num kv.2)]))

theorem load_wfMapJson_go :
    ∀ (pairs : List (String × Int)) (acc : MessageMap),
      (∀ k ∈ pairs.map Prod.fst, k ≠ "") →
      (pairs.map Prod.fst).Nodup →
      (∀ k ∈ pairs.map Prod.fst, k ∉ acc.map Prod.fst) →
      ((pairs.map (fun kv =>
          Json.obj [(kv.1, Json.obj [("message_id", Json.num kv.2)])])).foldl
        loadItem acc) = acc ++ wfMapRecords pairs := by
  intro pairs
  induction pairs with
  | nil => intro acc _ _ _; simp [wfMapRecords]
  | cons kv rest ih =>
    obtain ⟨k, mid⟩ := kv
    intro acc hne hnodup hdisj
    simp only [List.map_cons, List.foldl_cons]
    have hk : k ≠ "" := hne k (by simp)
    have hstep : loadItem acc (Json.obj [(k, Json.obj [("message_id", Json.num mid)])])
        = acc ++ [(k, Json.obj [("message_id", Json.num mid)])] := by
      show (if k ≠ "" then jsSetKey acc k _ else acc) = _
      rw [if_pos hk, jsSetKey_of_not_mem acc k _ (hdisj k (by simp))]
    rw [hstep]
    rw [List.map_cons, List.nodup_cons] at hnodup
    rw [ih (acc ++ [(k, Json.obj [("message_id", Json.num mid)])])
      (fun k' h' => hne k' (by simp [h']))
      hnodup.2
      (fun k' h' => by
        simp only [List.map_append, List.mem_append]
        push_neg
        refine ⟨hdisj k' (by simp [h']), ?_⟩
        simp only [List.map_cons, List.map_nil, List.mem_singleton]
        exact fun hh => hnodup.1 (hh ▸ h'))]
    simp [wfMapRecords]

theorem load_wfMapJson (pairs : List (String × Int))
    (hne : ∀ k ∈ pairs.map Prod.fst, k ≠ "")
    (hnodup : (pairs.map Prod.fst).Nodup) :
    loadMessageMap (.parsed (wfMapJson pairs)) = wfMapRecords pairs := by
  show (pairs.map _).foldl loadItem [] = wfMapRecords pairs
  rw [load_wfMapJson_go pairs [] hne hnodup (by simp)]
  simp

theorem save_wfMapRecords_rebuild :
    ∀ pairs : List (String × Int), (pairs.map Prod.fst).Nodup →
      ((pairs.map Prod.fst).map (fun k =>
        Json.obj [(k, saveRecordJson ((jsLookup (wfMapRecords pairs) k).getD Json.null))]))
      = pairs.map (fun kv =>
          Json.obj [(kv.1, Json.obj [("message_id", Json.num kv.2)])]) := by
  intro pairs
  induction pairs with
  | nil => intro _; rfl
  | cons kv rest ih =>
    obtain ⟨k, mid⟩ := kv
    intro hnodup
    rw [List.map_cons, List.nodup_cons] at hnodup
    simp only [List.map_cons]
    congr 1
    · have : jsLookup (wfMapRecords ((k, mid) :: rest)) k
          = some (Json.obj [("message_id", Json.num mid)]) := by
        simp [wfMapRecords, jsLookup]
      rw [this]
      rfl
    · rw [← ih hnodup.2]
      apply List.map_congr_left
      intro a ha
      have hak : k ≠ a := fun hh => hnodup.1 (hh ▸ ha)
      have : jsLookup (wfMapRecords ((k, mid) :: rest)) a
          = jsLookup (wfMapRecords rest) a := by
        simp [wfMapRecords, jsLookup, hak]
      rw [this]

theorem save_wfMapRecords (pairs : List (String × Int))
    (hsorted : List.Pairwise (fun a b => strLe a b = true) (pairs.map Prod.fst))
    (hnodup : (pairs.map Prod.fst).Nodup) :
    saveMessageMap (wfMapRecords pairs) = some (wfMapJson pairs) := by
  have hnull : (wfMapRecords pairs).any (fun kv => kv.2 = Json.null) = false := by
    rw [List.any_eq_false]
    intro kv hkv
    simp only [wfMapRecords, List.mem_map] at hkv
    obtain ⟨p, _, hp⟩ := hkv
    rw [← hp]
    simp
  have hkeys : (wfMapRecords pairs).map Prod.fst = pairs.map Prod.fst := by
    simp [wfMapRecords]
  unfold saveMessageMap
  rw [if_neg (by rw [hnull]; exact fun h => nomatch h)]
  unfold sortedKeys
  rw [hkeys, List.Sorted.insertionSort_eq hsorted,
    save_wfMapRecords_rebuild pairs hnodup]
  rfl

/-- C4 counterexample: a well-formed, non-empty persisted map whose records
are not in sorted key order does not round-trip: saving the loaded map
reorders the array, so save(load(x)) differs from x. -/
theorem C4_counterexample :
    saveMessageMap (loadMessageMap (MapFileView.parsed (Json.arr
        [Json.obj [("b", Json.obj [("message_id", Json.num 1)])],
          Json.obj [("a", Json.obj [("message_id", Json.num 2)])]])))
      ≠ some (Json.arr
        [Json.obj [("b", Json.obj [("message_id", Json.num 1)])],
          Json.obj [("a", Json.obj [("message_id", Json.num 2)])]]) := by
  decide

/-- C4 (amended): for any well-formed non-empty persisted map whose chat-id
keys are strictly ascending in the save comparator's order (as every file
written by `saveMessageMap` is), saving the loaded map reproduces the file
exactly: save(load(x)) = x. -/
theorem C4_roundtrip_sorted (pairs : List (String × Int))
    (hchain : List.Chain' (fun a b => strLe a b = true ∧ a ≠ b) (pairs.map Prod.fst))
    (hne : ∀ k ∈ pairs.map Prod.fst, k ≠ "") :
    saveMessageMap (loadMessageMap (.parsed (wfMapJson pairs)))
      = some (wfMapJson pairs) := by
  have hpw : List.Pairwise (fun a b => strLe a b = true ∧ a ≠ b) (pairs.map Prod.fst) :=
    List.chain'_iff_pairwise.mp hchain
  have hnodup : (pairs.map Prod.fst).Nodup := hpw.imp (fun h => h.2)
  have hsorted : List.Pairwise (fun a b => strLe a b = true) (pairs.map Prod.fst) :=
    hpw.imp (fun h => h.1)
  rw [load_wfMapJson pairs hne hnodup]
  exact save_wfMapRecords pairs hsorted hnodup

theorem C4_roundtrip_sorted_witness :
    saveMessageMap (loadMessageMap (.parsed (wfMapJson [("a", 5), ("b", 7)])))
      = some (wfMapJson [("a", 5), ("b", 7)]) :=
  C4_roundtrip_sorted [("a", 5), ("b", 7)]
    (List.chain'_cons.mpr ⟨⟨by decide, by decide⟩, List.chain'_singleton _⟩)
    (by decide)

/-- Attempt events of the retry loop trace. -/
def isAttemptEv : FetchEvent → Bool
  | .attemptEv _ => true
  | .sleptEv _ => false

/-- The markup of the latest attempt in `[attempt, attempt + remaining)` that
captured content (the `lastHtml` variable after those attempts), starting
from `last`. -/
def lastGotIn (outc : Nat → AttemptOutcome) : Nat → Nat → String → String
  | _, 0, last => last
  | attempt, remaining + 1, last =>
    match outc attempt with
    | .got h => lastGotIn outc (attempt + 1) remaining h
    | .thrown => lastGotIn outc (attempt + 1) remaining last

theorem fetchLoop_attempt_count (cfg : FetchCfg) (outc : Nat → AttemptOutcome)
    (jit : Nat → Nat) :
    ∀ remaining attempt last,
      ((fetchLoop cfg outc jit remaining attempt last).2.countP isAttemptEv) ≤ remaining := by
  intro remaining
  induction remaining with
  | zero => intro attempt last; simp [fetchLoop]
  | succ rem ih =>
    intro attempt last
    cases houtc : outc attempt with
    | got html =>
      by_cases hsusp : isSuspectHtml cfg.minBytes html = false
      · simp [fetchLoop, houtc, hsusp, isAttemptEv]
      · simp only [fetchLoop, houtc, if_neg hsusp]
        rw [List.countP_cons]
        simp only [List.countP_append]
        have hevs : ∀ b : Bool,
            List.countP isAttemptEv
              (if b = true then [FetchEvent.sleptEv (cfg.backoffMs * attempt + jit attempt)]
               else []) = 0 := by
          intro b; cases b <;> simp [isAttemptEv]
        by_cases hlt : attempt < cfg.maxRetry
        · simp only [if_pos hlt]
          have := ih (attempt + 1) html
          simp [isAttemptEv, List.countP_nil]
          omega
        · simp only [if_neg hlt]
          have := ih (attempt + 1) html
          simp [isAttemptEv, List.countP_nil]
          omega
    | thrown =>
      simp only [fetchLoop, houtc]
      rw [List.countP_cons]
      simp only [List.countP_append]
      by_cases hlt : attempt < cfg.maxRetry
      · simp only [if_pos hlt]
        have := ih (attempt + 1) last
        simp [isAttemptEv, List.countP_nil]
        omega
      · simp only [if_neg hlt]
        have := ih (attempt + 1) last
        simp [isAttemptEv, List.countP_nil]
        omega

theorem fetchLoop_fail_html (cfg : FetchCfg) (outc : Nat → AttemptOutcome)
    (jit : Nat → Nat) :
    ∀ remaining attempt last,
      (fetchLoop cfg outc jit remaining attempt last).1.ok = false →
      (fetchLoop cfg outc jit remaining attempt last).1.html
        = lastGotIn outc attempt remaining last := by
  intro remaining
  induction remaining with
  | zero => intro attempt last _; simp [fetchLoop, lastGotIn]
  | succ rem ih =>
    intro attempt last hfail
    cases houtc : outc attempt with
    | got html =>
      by_cases hsusp : isSuspectHtml cfg.minBytes html = false
      · rw [show (fetchLoop cfg outc jit (rem + 1) attempt last).1.ok = false ↔ False by
          simp [fetchLoop, houtc, hsusp]] at hfail
        cases hfail
      · simp only [fetchLoop, houtc, if_neg hsusp] at hfail ⊢
        rw [lastGotIn]
        simp only [houtc]
        exact ih (attempt + 1) html hfail
    | thrown =>
      simp only [fetchLoop, houtc] at hfail ⊢
      rw [lastGotIn]
      simp only [houtc]
      exact ih (attempt + 1) last hfail

/-- C2 (amended): for each source the loop makes at most the configured
number of attempts; an accepted attempt returns immediately with no backoff
event; a suspect or throwing attempt is followed (below the attempt cap) by a
sleep of `backoff * attempt + jitter`; and on exhaustion the result carries
the last-obtained content — suspect, or empty when every attempt threw — and
the region loop still writes it, except that empty content is replaced by the
literal `<!-- empty -->` placeholder. -/
theorem C2_retry_policy (cfg : FetchCfg) (outc : Nat → AttemptOutcome) (jit : Nat → Nat) :
    ((fetchWithRetry cfg outc jit).2.countP isAttemptEv ≤ cfg.maxRetry) ∧
    (∀ remaining attempt last html, outc attempt = .got html →
      isSuspectHtml cfg.minBytes html = false →
      fetchLoop cfg outc jit (remaining + 1) attempt last
        = ({ ok := true, html := html, bytes := html.length, attempt := attempt },
          [.attemptEv attempt])) ∧
    (∀ remaining attempt last, attempt < cfg.maxRetry →
      (outc attempt = .thrown ∨
        ∃ html, outc attempt = .got html ∧ isSuspectHtml cfg.minBytes html = true) →
      ∃ rest, (fetchLoop cfg outc jit (remaining + 1) attempt last).2
        = FetchEvent.attemptEv attempt ::
            FetchEvent.sleptEv (cfg.backoffMs * attempt + jit attempt) :: rest) ∧
    ((fetchWithRetry cfg outc jit).1.ok = false →
      (fetchWithRetry cfg outc jit).1.html = lastGotIn outc 1 cfg.maxRetry "" ∧
      writtenHtml (fetchWithRetry cfg outc jit).1
        = (if (fetchWithRetry cfg outc jit).1.html = "" then "<!-- empty -->"
          else (fetchWithRetry cfg outc jit).1.html)) := by
  refine ⟨fetchLoop_attempt_count cfg outc jit cfg.maxRetry 1 "", ?_, ?_, ?_⟩
  · intro remaining attempt last html houtc hsusp
    simp [fetchLoop, houtc, hsusp]
  · intro remaining attempt last hlt hbad
    rcases hbad with hthrown | ⟨html, hgot, hsusp⟩
    · refine ⟨(fetchLoop cfg outc jit remaining (attempt + 1) last).2, ?_⟩
      simp [fetchLoop, hthrown, hlt]
    · refine ⟨(fetchLoop cfg outc jit remaining (attempt + 1) html).2, ?_⟩
      have hsusp' : ¬isSuspectHtml cfg.minBytes html = false := by simp [hsusp]
      simp [fetchLoop, hgot, hsusp', hlt]
  · intro hfail
    refine ⟨fetchLoop_fail_html cfg outc jit cfg.maxRetry 1 "" hfail, ?_⟩
    unfold writtenHtml
    rw [if_neg (by simp [hfail])]

/-- C2 counterexample: when every attempt throws, the loop exhausts with the
empty string as last-obtained content, but the region loop writes the
`<!-- empty -->` placeholder, not that content. -/
theorem C2_counterexample :
    (fetchWithRetry ⟨2, 1500, 2000⟩ (fun _ => AttemptOutcome.thrown) (fun _ => 0)).1.ok
        = false ∧
    writtenHtml (fetchWithRetry ⟨2, 1500, 2000⟩ (fun _ => AttemptOutcome.thrown)
        (fun _ => 0)).1
      ≠ (fetchWithRetry ⟨2, 1500, 2000⟩ (fun _ => AttemptOutcome.thrown) (fun _ => 0)).1.html := by
  exact ⟨rfl, by decide⟩

theorem C2_retry_policy_witness :
    fetchLoop ⟨3, 5, 2000⟩ (fun _ => AttemptOutcome.got "DisconSchedule.fact DisconSchedule.preset")
        (fun _ => 7) 2 2 ""
      = ({ ok := true, html := "DisconSchedule.fact DisconSchedule.preset",
            bytes := ("DisconSchedule.fact DisconSchedule.preset" : String).length,
            attempt := 2 },
          [.attemptEv 2]) :=
  (C2_retry_policy ⟨3, 5, 2000⟩
      (fun _ => AttemptOutcome.got "DisconSchedule.fact DisconSchedule.preset")
      (fun _ => 7)).2.1 1 2 "" _ rfl (by decide)

/-! Injectivity of the decimal rendering used for the `cb` value. -/

theorem decimalDigits_eq_digits : ∀ fuel n : Nat, n ≤ fuel →
    decimalDigits fuel n = Nat.digits 10 n := by
  intro fuel
  induction fuel with
  | zero =>
    intro n h
    interval_cases n
    simp [decimalDigits]
  | succ f ih =>
    intro n h
    match n with
    | 0 => simp [decimalDigits]
    | m + 1 =>
      rw [show decimalDigits (f + 1) (m + 1)
          = (m + 1) % 10 :: decimalDigits f ((m + 1) / 10) from rfl]
      rw [Nat.digits_def' (by norm_num : (1 : Nat) < 10) (Nat.succ_pos m)]
      congr 1
      refine ih _ ?_
      have h1 : (m + 1) / 10 < m + 1 := Nat.div_lt_self (Nat.succ_pos m) (by norm_num)
      omega

theorem digitToChar_inj_lt : ∀ d1 < 10, ∀ d2 < 10,
    digitToChar d1 = digitToChar d2 → d1 = d2 := by decide

theorem mapDigit_inj : ∀ l1 l2 : List Nat, (∀ d ∈ l1, d < 10) → (∀ d ∈ l2, d < 10) →
    l1.map digitToChar = l2.map digitToChar → l1 = l2
  | [], [] => fun _ _ _ => rfl
  | [], _ :: _ => fun _ _ h => nomatch h
  | _ :: _, [] => fun _ _ h => nomatch h
  | d1 :: t1, d2 :: t2 => fun h1 h2 h => by
    simp only [List.map_cons, List.cons.injEq] at h
    have hd := digitToChar_inj_lt d1 (h1 d1 (by simp)) d2 (h2 d2 (by simp)) h.1
    rw [hd, mapDigit_inj t1 t2 (fun d hd' => h1 d (by simp [hd']))
      (fun d hd' => h2 d (by simp [hd'])) h.2]

theorem natToDecimal_ne_zero_str (n : Nat) (hn : n ≠ 0) : natToDecimal n ≠ "0" := by
  intro h
  unfold natToDecimal at h
  rw [if_neg hn, decimalDigits_eq_digits n n le_rfl] at h
  have hdata := congrArg String.data h
  have h0 : ("0" : String).data = ['0'] := rfl
  rw [h0] at hdata
  simp only at hdata
  have hml : (Nat.digits 10 n).map digitToChar = ['0'] := by
    have := congrArg List.reverse hdata
    rwa [List.reverse_reverse, show (['0'] : List Char).reverse = ['0'] from rfl] at this
  have hdig : Nat.digits 10 n = [0] := by
    have h01 : (['0'] : List Char) = [0].map digitToChar := by decide
    rw [h01] at hml
    exact mapDigit_inj _ _
      (fun d hd => Nat.digits_lt_base (by norm_num) hd)
      (by intro d hd; simp at hd; omega) hml
  have := Nat.ofDigits_digits 10 n
  rw [hdig] at this
  simp [Nat.ofDigits] at this
  exact hn this.symm

theorem natToDecimal_inj (m n : Nat) (h : natToDecimal m = natToDecimal n) : m = n := by
  by_cases hm : m = 0 <;> by_cases hn : n = 0
  · rw [hm, hn]
  · exfalso
    apply natToDecimal_ne_zero_str n hn
    rw [← h, hm]
    rfl
  · exfalso
    apply natToDecimal_ne_zero_str m hm
    rw [h, hn]
    rfl
  · have hm' : natToDecimal m
        = ⟨((Nat.digits 10 m).map digitToChar).reverse⟩ := by
      unfold natToDecimal
      rw [if_neg hm, decimalDigits_eq_digits m m le_rfl]
    have hn' : natToDecimal n
        = ⟨((Nat.digits 10 n).map digitToChar).reverse⟩ := by
      unfold natToDecimal
      rw [if_neg hn, decimalDigits_eq_digits n n le_rfl]
    rw [hm', hn'] at h
    have hdata := congrArg String.data h
    simp only at hdata
    rw [List.reverse_inj] at hdata
    have hdig := mapDigit_inj _ _
      (fun d hd => Nat.digits_lt_base (by norm_num) hd)
      (fun d hd => Nat.digits_lt_base (by norm_num) hd) hdata
    exact Nat.digits_inj_iff.mp hdig

/-! String concatenation cancellation, via the character lists. -/

theorem strCancelLeft (a b c : String) (h : a ++ b = a ++ c) : b = c := by
  apply String.ext
  have hd := congrArg String.data h
  rw [String.data_append, String.data_append] at hd
  exact List.append_cancel_left hd

theorem strCancelRight (a b c : String) (h : a ++ c = b ++ c) : a = b := by
  apply String.ext
  have hd := congrArg String.data h
  rw [String.data_append, String.data_append] at hd
  exact List.append_cancel_right hd

theorem setParam_ne_nil : ∀ (ps : List (String × String)) (k v : String),
    setParam ps k v ≠ []
  | [], _, _ => by simp [setParam]
  | (k', v') :: rest, k, v => by
    by_cases h : k' = k <;> simp [setParam, h]

theorem renderParams_setParam_ne (k d1 d2 : String) (hne : d1 ≠ d2) :
    ∀ ps, renderParams (setParam ps k d1) ≠ renderParams (setParam ps k d2) := by
  intro ps
  induction ps with
  | nil =>
    intro h
    exact hne (strCancelLeft (k ++ "=") d1 d2 h)
  | cons kv rest ih =>
    obtain ⟨k', v'⟩ := kv
    by_cases hk : k' = k
    · subst hk
      cases hrem : removeKey rest k' with
      | nil =>
        intro h
        simp only [setParam, if_pos rfl, hrem] at h
        exact hne (strCancelLeft (k' ++ "=") d1 d2 h)
      | cons p ps' =>
        intro h
        simp only [setParam, if_pos rfl, hrem] at h
        have h1 := strCancelRight _ _ _ h
        have h2 := strCancelRight _ _ _ h1
        exact hne (strCancelLeft _ _ _ h2)
    · intro h
      simp only [setParam, if_neg hk] at h
      obtain ⟨p1, ps1, hp1⟩ : ∃ p ps', setParam rest k d1 = p :: ps' := by
        cases hsp : setParam rest k d1 with
        | nil => exact absurd hsp (setParam_ne_nil rest k d1)
        | cons p ps' => exact ⟨p, ps', rfl⟩
      obtain ⟨p2, ps2, hp2⟩ : ∃ p ps', setParam rest k d2 = p :: ps' := by
        cases hsp : setParam rest k d2 with
        | nil => exact absurd hsp (setParam_ne_nil rest k d2)
        | cons p ps' => exact ⟨p, ps', rfl⟩
      rw [hp1, hp2] at h
      have h' := strCancelLeft _ _ _ h
      apply ih
      rw [hp1, hp2]
      exact h'

theorem urlToString_nonempty (b : String) (ps : List (String × String)) (h : ps ≠ []) :
    urlToString ⟨b, ps⟩ = b ++ "?" ++ renderParams ps := by
  simp only [urlToString]
  rw [if_neg (by simpa [List.isEmpty_iff] using h)]

theorem renderParams_setParam_decomp (k d : String) :
    ∀ ps, ∃ pre suf, renderParams (setParam ps k d) = pre ++ (k ++ "=" ++ d) ++ suf := by
  intro ps
  induction ps with
  | nil =>
    refine ⟨"", "", ?_⟩
    simp [setParam, renderParams, String.append_assoc]
  | cons kv rest ih =>
    obtain ⟨k', v'⟩ := kv
    by_cases hk : k' = k
    · subst hk
      cases hrem : removeKey rest k' with
      | nil =>
        refine ⟨"", "", ?_⟩
        simp only [setParam, if_pos rfl, hrem, renderParams]
        simp [String.append_assoc]
      | cons p ps' =>
        refine ⟨"", "&" ++ renderParams (p :: ps'), ?_⟩
        simp only [setParam, if_pos rfl, hrem, renderParams]
        simp [String.append_assoc]
    · obtain ⟨pre, suf, hps⟩ := ih
      obtain ⟨p1, ps1, hp1⟩ : ∃ p ps', setParam rest k d = p :: ps' := by
        cases hsp : setParam rest k d with
        | nil => exact absurd hsp (setParam_ne_nil rest k d)
        | cons p ps' => exact ⟨p, ps', rfl⟩
      refine ⟨k' ++ "=" ++ v' ++ "&" ++ pre, suf, ?_⟩
      simp only [setParam, if_neg hk, hp1, renderParams]
      rw [← hp1, hps]
      simp [String.append_assoc]

/-- C9: every caption is suffixed with the timestamp line (a falsy caption
becomes just the line), the outgoing image URL carries a `cb` query parameter
holding the current time, and two sends at different times are never
byte-identical in the URL they send. -/
theorem C9_caption_and_cachebust (ts : String) (caption : Option String)
    (now now1 now2 : Nat) (u : UrlInput) :
    (∃ p, withTimestamp ts caption = p ++ ("Оновлено: " ++ ts)) ∧
    ((caption = none ∨ caption = some "") → withTimestamp ts caption = "Оновлено: " ++ ts) ∧
    (∃ pre suf, cacheBustedUrl now u = pre ++ ("cb=" ++ natToDecimal now) ++ suf) ∧
    (now1 ≠ now2 → cacheBustedUrl now1 u ≠ cacheBustedUrl now2 u) := by
  refine ⟨?_, ?_, ?_, ?_⟩
  · match caption with
    | none => exact ⟨"", (String.empty_append _).symm⟩
    | some c =>
      by_cases hc : c = ""
      · subst hc
        exact ⟨"", (String.empty_append _).symm⟩
      · refine ⟨c ++ "\n", ?_⟩
        have hw : withTimestamp ts (some c) = c ++ "\n" ++ "Оновлено: " ++ ts := by
          show (if c = "" then "Оновлено: " ++ ts else c ++ "\n" ++ "Оновлено: " ++ ts)
              = c ++ "\n" ++ "Оновлено: " ++ ts
          rw [if_neg hc]
        rw [hw, String.append_assoc (c ++ "\n") "Оновлено: " ts]
  · rintro (h | h) <;> simp [h, withTimestamp]
  · cases u with
    | parsed um =>
      obtain ⟨pre, suf, hps⟩ := renderParams_setParam_decomp "cb" (natToDecimal now) um.params
      refine ⟨um.base ++ "?" ++ pre, suf, ?_⟩
      rw [show cacheBustedUrl now (UrlInput.parsed um)
          = urlToString ⟨um.base, setParam um.params "cb" (natToDecimal now)⟩ from rfl]
      rw [urlToString_nonempty _ _ (setParam_ne_nil um.params "cb" (natToDecimal now))]
      rw [hps]
      rw [show ("cb" : String) ++ "=" ++ natToDecimal now = "cb=" ++ natToDecimal now from
        congrArg (· ++ natToDecimal now) rfl]
      simp [String.append_assoc]
    | unparsed s =>
      refine ⟨s ++ (if jsIncludes s "?" then "&" else "?"), "", ?_⟩
      rw [show cacheBustedUrl now (UrlInput.unparsed s)
          = s ++ (if jsIncludes s "?" then "&" else "?") ++ "cb=" ++ natToDecimal now from rfl]
      simp [String.append_assoc]
  · intro hne
    have hd : natToDecimal now1 ≠ natToDecimal now2 :=
      fun hh => hne (natToDecimal_inj _ _ hh)
    cases u with
    | parsed um =>
      intro hh
      rw [show cacheBustedUrl now1 (UrlInput.parsed um)
            = urlToString ⟨um.base, setParam um.params "cb" (natToDecimal now1)⟩ from rfl,
        show cacheBustedUrl now2 (UrlInput.parsed um)
            = urlToString ⟨um.base, setParam um.params "cb" (natToDecimal now2)⟩ from rfl,
        urlToString_nonempty _ _ (setParam_ne_nil um.params "cb" (natToDecimal now1)),
        urlToString_nonempty _ _ (setParam_ne_nil um.params "cb" (natToDecimal now2))] at hh
      exact renderParams_setParam_ne "cb" (natToDecimal now1) (natToDecimal now2) hd
        um.params (strCancelLeft (um.base ++ "?") _ _ hh)
    | unparsed s =>
      intro hh
      exact hd (strCancelLeft (s ++ (if jsIncludes s "?" then "&" else "?") ++ "cb=") _ _ hh)

theorem C9_witness :
    cacheBustedUrl 1 (UrlInput.unparsed "https://x/img.png")
      ≠ cacheBustedUrl 2 (UrlInput.unparsed "https://x/img.png") :=
  (C9_caption_and_cachebust "2024-01-01 00:00" none 0 1 2
    (UrlInput.unparsed "https://x/img.png")).2.2.2 (by decide)

/-! Views of one main-loop iteration, used to reason about whole runs. -/

/-- The `c.chat_id && c.image_url` validity test of the main loop. -/
def validTarget (c : ChatTarget) : Bool :=
  optStrTruthy c.chat_id && optStrTruthy c.image_url

/-- The chat id string of a target (only used for valid targets). -/
def cidOf (c : ChatTarget) : String := c.chat_id.getD ""

/-- Chat ids of the valid targets of a run configuration. -/
def validCids (items : List (ChatTarget × TargetOutcome)) : List String :=
  (items.filter (fun it => validTarget it.1)).map (fun it => cidOf it.1)

/-- All values of a map are objects — true of every map the script itself
produces (`loadMessageMap` of a well-formed file, and every `setMessageId`). -/
def objValues (m : MessageMap) : Prop :=
  ∀ kv ∈ m, ∃ fields, kv.2 = Json.obj fields

def isSendCall : ApiEvent → Bool
  | .sendCall _ => true
  | _ => false

def isEditCall : ApiEvent → Bool
  | .editCall _ _ => true
  | _ => false

def isPinCall : ApiEvent → Bool
  | .pinCall _ _ => true
  | _ => false

/-- A message-send-or-edit attempt. -/
def isMsgCall (e : ApiEvent) : Bool := isSendCall e || isEditCall e

/-- The send-or-edit call of one valid main-loop iteration. -/
def stepCall (known : Option Json) (cid : String) (o : TargetOutcome) :
    CallResult × List ApiEvent :=
  if optJsonTruthy known = false then sendPhotoM cid o.sendOut
  else editPhotoM cid (known.getD Json.null) o.editOut o.sendOut

/-- The map/dirty update of one valid main-loop iteration. -/
def stepUpdate (m : MessageMap) (dirty : Bool) (known : Option Json) (cid : String)
    (r : CallResult) : MessageMap × Bool :=
  if optJsonTruthy known = false then
    if r.ok && optJsonTruthy r.message_id then
      setMessageIdM m dirty cid (r.message_id.getD Json.null)
    else (m, dirty)
  else
    if r.ok && r.replaced && optJsonTruthy r.message_id then
      setMessageIdM m dirty cid (r.message_id.getD Json.null)
    else (m, dirty)

theorem processTarget_invalid (st : RunState) (c : ChatTarget) (o : TargetOutcome)
    (hv : validTarget c = false) :
    processTarget st c o
      = { st with results := st.results ++ [{ ok := false, reason := some "invalid-config" }] } := by
  unfold processTarget
  rw [if_pos (by simpa [validTarget] using hv)]

theorem processTarget_valid (st : RunState) (c : ChatTarget) (o : TargetOutcome)
    (hv : validTarget c = true) :
    processTarget st c o =
      { map := (stepUpdate st.map st.dirty (knownOf st.map (cidOf c)) (cidOf c)
          (stepCall (knownOf st.map (cidOf c)) (cidOf c) o).1).1,
        dirty := (stepUpdate st.map st.dirty (knownOf st.map (cidOf c)) (cidOf c)
          (stepCall (knownOf st.map (cidOf c)) (cidOf c) o).1).2,
        results := st.results ++ [(stepCall (knownOf st.map (cidOf c)) (cidOf c) o).1],
        trace := st.trace ++ (stepCall (knownOf st.map (cidOf c)) (cidOf c) o).2 } := by
  unfold processTarget stepCall stepUpdate cidOf
  rw [if_neg (by simp only [validTarget] at hv; simp [hv])]
  by_cases hk : optJsonTruthy (knownOf st.map (c.chat_id.getD "")) = false
  · simp [hk]
  · simp only [Bool.not_eq_false] at hk
    simp [hk]

theorem jsLookup_mem : ∀ (m : MessageMap) (k : String) (v : Json),
    jsLookup m k = some v → (k, v) ∈ m := by
  intro m
  induction m with
  | nil => intro k v h; cases h
  | cons kv rest ih =>
    obtain ⟨k0, v0⟩ := kv
    intro k v h
    by_cases hk : k0 = k
    · subst hk
      have h' : v0 = v := by simpa [jsLookup] using h
      subst h'
      exact List.mem_cons_self _ _
    · simp only [jsLookup, if_neg hk] at h
      exact List.mem_cons_of_mem _ (ih k v h)

theorem objValues_jsSetKey (m : MessageMap) (k : String) (v : Json)
    (h : objValues m) (hv : ∃ fields, v = Json.obj fields) :
    objValues (jsSetKey m k v) := by
  intro kv hkv
  rcases mem_jsSetKey m k v kv hkv with h' | h'
  · exact h kv h'
  · rw [h']
    exact hv

theorem optJsonTruthy_getD (x : Option Json) (h : optJsonTruthy x = true) :
    jsTruthy (x.getD Json.null) = true := by
  cases x with
  | none => cases h
  | some v => exact h

theorem ensureSlot_lookup_ne (m : MessageMap) (cid k : String) (hk : k ≠ cid) :
    jsLookup (ensureSlot m cid) k = jsLookup m k := by
  unfold ensureSlot
  by_cases h : optJsonTruthy (jsLookup m cid) = true
  · rw [if_pos h]
  · rw [if_neg h]
    exact jsLookup_jsSetKey_ne m cid k (Json.obj []) hk

theorem objValues_ensureSlot (m : MessageMap) (cid : String) (h : objValues m) :
    objValues (ensureSlot m cid) := by
  unfold ensureSlot
  by_cases hc : optJsonTruthy (jsLookup m cid) = true
  · rwa [if_pos hc]
  · rw [if_neg hc]
    exact objValues_jsSetKey m cid _ h ⟨[], rfl⟩

theorem setMessageIdM_lookup_ne (m : MessageMap) (d : Bool) (cid : String) (mid : Json)
    (k : String) (hk : k ≠ cid) :
    jsLookup (setMessageIdM m d cid mid).1 k = jsLookup m k := by
  unfold setMessageIdM
  by_cases h1 : jsTruthy mid = false
  · rw [if_pos h1]
  · rw [if_neg h1]
    by_cases h2 : jsGetField ((jsLookup (ensureSlot m cid) cid).getD Json.null) "message_id"
        = some mid
    · rw [if_pos h2]
      exact ensureSlot_lookup_ne m cid k hk
    · rw [if_neg h2]
      show jsLookup (jsSetKey (ensureSlot m cid) cid _) k = jsLookup m k
      rw [jsLookup_jsSetKey_ne _ _ _ _ hk]
      exact ensureSlot_lookup_ne m cid k hk

theorem setMessageIdM_char (m : MessageMap) (d : Bool) (cid : String) (mid : Json)
    (hmid : jsTruthy mid = true) (hobj : objValues m) :
    (knownOf m cid = some mid ∧ setMessageIdM m d cid mid = (m, d)) ∨
    (knownOf m cid ≠ some mid ∧ (setMessageIdM m d cid mid).2 = true ∧
      knownOf (setMessageIdM m d cid mid).1 cid = some mid ∧
      objValues (setMessageIdM m d cid mid).1) := by
  have h1 : ¬jsTruthy mid = false := by rw [hmid]; exact fun h => nomatch h
  cases hl : jsLookup m cid with
  | some v =>
    obtain ⟨fs, hfs⟩ := hobj (cid, v) (jsLookup_mem m cid v hl)
    simp only at hfs
    subst hfs
    have hslot : ensureSlot m cid = m := by
      simp [ensureSlot, hl, optJsonTruthy, jsTruthy]
    have hcur : (jsLookup (ensureSlot m cid) cid).getD Json.null = Json.obj fs := by
      rw [hslot, hl]
      rfl
    have hknown : knownOf m cid = jsGetField (Json.obj fs) "message_id" := by
      unfold knownOf
      rw [hl]
      rfl
    by_cases h2 : jsGetField ((jsLookup (ensureSlot m cid) cid).getD Json.null) "message_id"
        = some mid
    · left
      refine ⟨?_, ?_⟩
      · rw [hknown, ← hcur]
        exact h2
      · unfold setMessageIdM
        rw [if_neg h1, if_pos h2, hslot]
    · right
      have hstep : setMessageIdM m d cid mid
          = (jsSetKey m cid (Json.obj (jsSetKey fs "message_id" mid)), true) := by
        unfold setMessageIdM
        rw [if_neg h1, if_neg h2, hslot, hl]
        rfl
      refine ⟨?_, ?_, ?_, ?_⟩
      · rw [hknown, ← hcur]
        exact h2
      · rw [hstep]
      · rw [hstep]
        unfold knownOf
        rw [jsLookup_jsSetKey_self]
        show jsLookup (jsSetKey fs "message_id" mid) "message_id" = some mid
        exact jsLookup_jsSetKey_self fs "message_id" mid
      · rw [hstep]
        exact objValues_jsSetKey m cid _ hobj ⟨_, rfl⟩
  | none =>
    have hslot : ensureSlot m cid = jsSetKey m cid (Json.obj []) := by
      unfold ensureSlot
      rw [hl]
      rfl
    have hcur : (jsLookup (ensureSlot m cid) cid).getD Json.null = Json.obj [] := by
      rw [hslot, jsLookup_jsSetKey_self]
      rfl
    have h2 : ¬jsGetField ((jsLookup (ensureSlot m cid) cid).getD Json.null) "message_id"
        = some mid := by
      rw [hcur]
      exact fun h => nomatch h
    have hstep : setMessageIdM m d cid mid
        = (jsSetKey (jsSetKey m cid (Json.obj [])) cid (Json.obj [("message_id", mid)]),
            true) := by
      unfold setMessageIdM
      rw [if_neg h1, if_neg h2, hslot, jsLookup_jsSetKey_self m cid (Json.obj [])]
      rfl
    right
    refine ⟨?_, ?_, ?_, ?_⟩
    · unfold knownOf
      rw [hl]
      exact fun h => nomatch h
    · rw [hstep]
    · rw [hstep]
      unfold knownOf
      rw [jsLookup_jsSetKey_self]
      rfl
    · rw [hstep]
      exact objValues_jsSetKey _ cid _
        (objValues_jsSetKey m cid _ hobj ⟨[], rfl⟩) ⟨_, rfl⟩

theorem stepUpdate_lookup_ne (m : MessageMap) (d : Bool) (known : Option Json)
    (cid : String) (r : CallResult) (k : String) (hk : k ≠ cid) :
    jsLookup (stepUpdate m d known cid r).1 k = jsLookup m k := by
  unfold stepUpdate
  split_ifs with h1 h2 h3
  · exact setMessageIdM_lookup_ne m d cid _ k hk
  · rfl
  · exact setMessageIdM_lookup_ne m d cid _ k hk
  · rfl

theorem stepUpdate_char (m : MessageMap) (d : Bool) (known : Option Json)
    (cid : String) (r : CallResult) (hobj : objValues m) :
    ((stepUpdate m d known cid r).1 = m ∧ (stepUpdate m d known cid r).2 = d) ∨
    (∃ mid : Json, jsTruthy mid = true ∧
      (stepUpdate m d known cid r).2 = true ∧
      knownOf (stepUpdate m d known cid r).1 cid = some mid ∧
      knownOf m cid ≠ some mid ∧
      objValues (stepUpdate m d known cid r).1) := by
  unfold stepUpdate
  split_ifs with h1 h2 h3
  · have hmid : jsTruthy (r.message_id.getD Json.null) = true :=
      optJsonTruthy_getD _ (Bool.and_eq_true_iff.mp h2).2
    rcases setMessageIdM_char m d cid (r.message_id.getD Json.null) hmid hobj with
      ⟨hkn, hres⟩ | ⟨hne, hd, hkn, ho⟩
    · left
      rw [hres]
      exact ⟨rfl, rfl⟩
    · right
      exact ⟨r.message_id.getD Json.null, hmid, hd, hkn, hne, ho⟩
  · left
    exact ⟨rfl, rfl⟩
  · have hmid : jsTruthy (r.message_id.getD Json.null) = true :=
      optJsonTruthy_getD _ (Bool.and_eq_true_iff.mp h3).2
    rcases setMessageIdM_char m d cid (r.message_id.getD Json.null) hmid hobj with
      ⟨hkn, hres⟩ | ⟨hne, hd, hkn, ho⟩
    · left
      rw [hres]
      exact ⟨rfl, rfl⟩
    · right
      exact ⟨r.message_id.getD Json.null, hmid, hd, hkn, hne, ho⟩
  · left
    exact ⟨rfl, rfl⟩

theorem stepUpdate_objValues (m : MessageMap) (d : Bool) (known : Option Json)
    (cid : String) (r : CallResult) (hobj : objValues m) :
    objValues (stepUpdate m d known cid r).1 := by
  rcases stepUpdate_char m d known cid r hobj with ⟨hm, _⟩ | ⟨mid, _, _, _, _, ho⟩
  · rw [hm]
    exact hobj
  · exact ho

theorem sendPhotoM_facts (cid : String) (out : NetOutcome) :
    (∀ e ∈ (sendPhotoM cid out).2, eventChat e = cid) ∧
    ((sendPhotoM cid out).2.countP isSendCall = 1) ∧
    ((sendPhotoM cid out).2.countP isEditCall = 0) ∧
    ((sendPhotoM cid out).2.countP isMsgCall = 1) ∧
    ((sendPhotoM cid out).2.countP isPinCall
      = if (sendPhotoM cid out).1.ok then 1 else 0) ∧
    ((sendPhotoM cid out).1.replaced = false) := by
  cases out with
  | netErr =>
    refine ⟨?_, ?_, ?_, ?_, ?_, ?_⟩ <;>
      simp [sendPhotoM, isSendCall, isEditCall, isMsgCall, isPinCall, eventChat,
        List.countP_cons, List.countP_nil]
  | resp j =>
    cases hok : j.ok <;>
      refine ⟨?_, ?_, ?_, ?_, ?_, ?_⟩ <;>
        simp [sendPhotoM, hok, isSendCall, isEditCall, isMsgCall, isPinCall, eventChat,
          List.countP_cons, List.countP_nil]

theorem editPhotoM_facts (cid : String) (kv : Json) (eo so : NetOutcome) :
    (∀ e ∈ (editPhotoM cid kv eo so).2, eventChat e = cid) ∧
    ((editPhotoM cid kv eo so).2.countP isEditCall = 1) ∧
    ((editPhotoM cid kv eo so).2.countP isSendCall
      = if (editPhotoM cid kv eo so).1.replaced then 1 else 0) ∧
    ((editPhotoM cid kv eo so).2.countP isMsgCall
      = if (editPhotoM cid kv eo so).1.replaced then 2 else 1) ∧
    ((editPhotoM cid kv eo so).2.countP isPinCall
      = if (editPhotoM cid kv eo so).1.ok then 1 else 0) ∧
    ((editPhotoM cid kv eo so).2.head? = some (ApiEvent.editCall cid kv)) ∧
    ((editPhotoM cid kv eo so).1.replaced = true →
      ∃ j, eo = NetOutcome.resp j ∧ j.ok = false ∧ j.error_code = some 400 ∧
        notModifiedResp j = false) := by
  cases eo with
  | netErr =>
    refine ⟨?_, ?_, ?_, ?_, ?_, ?_, ?_⟩ <;>
      simp [editPhotoM, isSendCall, isEditCall, isMsgCall, isPinCall, eventChat,
        List.countP_cons, List.countP_nil]
  | resp j =>
    by_cases hok : j.ok = true
    · refine ⟨?_, ?_, ?_, ?_, ?_, ?_, ?_⟩ <;>
        simp [editPhotoM, hok, isSendCall, isEditCall, isMsgCall, isPinCall, eventChat,
          List.countP_cons, List.countP_nil]
    · have hok' : j.ok = false := by revert hok; cases j.ok <;> simp
      by_cases hnm : notModifiedResp j = true
      · refine ⟨?_, ?_, ?_, ?_, ?_, ?_, ?_⟩ <;>
          simp [editPhotoM, hok', hnm, isSendCall, isEditCall, isMsgCall, isPinCall,
            eventChat, List.countP_cons, List.countP_nil]
      · have hnm' : notModifiedResp j = false := by revert hnm; cases notModifiedResp j <;> simp
        by_cases hc : j.error_code = some 400
        · obtain ⟨hchat, hsend, hedit, hmsg, hpin, hrep⟩ :=
            sendPhotoM_facts cid so
          have hred : editPhotoM cid kv (NetOutcome.resp j) so
              = ({ (sendPhotoM cid so).1 with replaced := true },
                  ApiEvent.editCall cid kv :: (sendPhotoM cid so).2) := by
            simp [editPhotoM, hok', hnm', hc]
          refine ⟨?_, ?_, ?_, ?_, ?_, ?_, ?_⟩ <;> rw [hred]
          · intro e he
            rcases List.mem_cons.mp he with he | he
            · rw [he]; rfl
            · exact hchat e he
          · simp [List.countP_cons, hedit, isEditCall]
          · simp [List.countP_cons, hsend, isSendCall]
          · simp [List.countP_cons, hmsg, isMsgCall, isSendCall, isEditCall]
          · simp [List.countP_cons, hpin, isPinCall]
          · rfl
          · exact fun _ => ⟨j, rfl, hok', hc, hnm'⟩
        · refine ⟨?_, ?_, ?_, ?_, ?_, ?_, ?_⟩ <;>
            simp [editPhotoM, hok', hnm', hc, isSendCall, isEditCall, isMsgCall,
              isPinCall, eventChat, List.countP_cons, List.countP_nil]

theorem stepCall_chat (known : Option Json) (cid : String) (o : TargetOutcome) :
    ∀ e ∈ (stepCall known cid o).2, eventChat e = cid := by
  unfold stepCall
  by_cases hk : optJsonTruthy known = false
  · rw [if_pos hk]
    exact (sendPhotoM_facts cid o.sendOut).1
  · rw [if_neg hk]
    exact (editPhotoM_facts cid _ o.editOut o.sendOut).1

theorem validCids_cons_valid (c : ChatTarget) (o : TargetOutcome)
    (items : List (ChatTarget × TargetOutcome)) (hv : validTarget c = true) :
    validCids ((c, o) :: items) = cidOf c :: validCids items := by
  simp [validCids, hv]

theorem validCids_cons_invalid (c : ChatTarget) (o : TargetOutcome)
    (items : List (ChatTarget × TargetOutcome)) (hv : validTarget c = false) :
    validCids ((c, o) :: items) = validCids items := by
  simp [validCids, hv]

theorem validCids_append (l1 l2 : List (ChatTarget × TargetOutcome)) :
    validCids (l1 ++ l2) = validCids l1 ++ validCids l2 := by
  simp [validCids, List.filter_append]

theorem runAll_append : ∀ (l1 l2 : List (ChatTarget × TargetOutcome)) (st : RunState),
    runAll st (l1 ++ l2) = runAll (runAll st l1) l2 := by
  intro l1
  induction l1 with
  | nil => intro l2 st; rfl
  | cons it rest ih =>
    intro l2 st
    obtain ⟨c, o⟩ := it
    exact ih l2 (processTarget st c o)

theorem runAll_trace_chats : ∀ (items : List (ChatTarget × TargetOutcome)) (st : RunState),
    ∃ tl, (runAll st items).trace = st.trace ++ tl ∧
      ∀ e ∈ tl, eventChat e ∈ validCids items := by
  intro items
  induction items with
  | nil => intro st; exact ⟨[], by simp [runAll], by simp⟩
  | cons it rest ih =>
    obtain ⟨c, o⟩ := it
    intro st
    obtain ⟨tl, htl, hmem⟩ := ih (processTarget st c o)
    by_cases hv : validTarget c = true
    · refine ⟨(stepCall (knownOf st.map (cidOf c)) (cidOf c) o).2 ++ tl, ?_, ?_⟩
      · show (runAll (processTarget st c o) rest).trace = _
        rw [htl, processTarget_valid st c o hv]
        simp [List.append_assoc]
      · intro e he
        rw [validCids_cons_valid c o rest hv]
        rcases List.mem_append.mp he with he | he
        · rw [stepCall_chat _ _ _ e he]
          exact List.mem_cons_self _ _
        · exact List.mem_cons_of_mem _ (hmem e he)
    · have hv' : validTarget c = false := by revert hv; cases validTarget c <;> simp
      refine ⟨tl, ?_, ?_⟩
      · show (runAll (processTarget st c o) rest).trace = _
        rw [htl, processTarget_invalid st c o hv']
      · intro e he
        rw [validCids_cons_invalid c o rest hv']
        exact hmem e he

theorem runAll_lookup_preserved : ∀ (items : List (ChatTarget × TargetOutcome))
    (st : RunState) (k : String), k ∉ validCids items →
    jsLookup (runAll st items).map k = jsLookup st.map k := by
  intro items
  induction items with
  | nil => intro st k _; rfl
  | cons it rest ih =>
    obtain ⟨c, o⟩ := it
    intro st k hk
    by_cases hv : validTarget c = true
    · rw [validCids_cons_valid c o rest hv, List.mem_cons] at hk
      push_neg at hk
      have h1 : jsLookup (runAll (processTarget st c o) rest).map k
          = jsLookup (processTarget st c o).map k := ih _ k hk.2
      show jsLookup (runAll (processTarget st c o) rest).map k = _
      rw [h1, processTarget_valid st c o hv]
      exact stepUpdate_lookup_ne _ _ _ _ _ k hk.1
    · have hv' : validTarget c = false := by revert hv; cases validTarget c <;> simp
      rw [validCids_cons_invalid c o rest hv'] at hk
      show jsLookup (runAll (processTarget st c o) rest).map k = _
      rw [ih _ k hk, processTarget_invalid st c o hv']

theorem knownOf_congr (m1 m2 : MessageMap) (k : String)
    (h : jsLookup m1 k = jsLookup m2 k) : knownOf m1 k = knownOf m2 k := by
  unfold knownOf
  rw [h]

theorem runAll_objValues : ∀ (items : List (ChatTarget × TargetOutcome)) (st : RunState),
    objValues st.map → objValues (runAll st items).map := by
  intro items
  induction items with
  | nil => exact fun st h => h
  | cons it rest ih =>
    obtain ⟨c, o⟩ := it
    intro st hobj
    by_cases hv : validTarget c = true
    · refine ih (processTarget st c o) ?_
      rw [processTarget_valid st c o hv]
      exact stepUpdate_objValues _ _ _ _ _ hobj
    · have hv' : validTarget c = false := by revert hv; cases validTarget c <;> simp
      refine ih (processTarget st c o) ?_
      rw [processTarget_invalid st c o hv']
      exact hobj

theorem runAll_results_shape : ∀ (items : List (ChatTarget × TargetOutcome)) (st : RunState),
    ∃ tl, (runAll st items).results = st.results ++ tl ∧ tl.length = items.length := by
  intro items
  induction items with
  | nil => intro st; exact ⟨[], by simp [runAll], rfl⟩
  | cons it rest ih =>
    obtain ⟨c, o⟩ := it
    intro st
    obtain ⟨tl, htl, hlen⟩ := ih (processTarget st c o)
    by_cases hv : validTarget c = true
    · refine ⟨(stepCall (knownOf st.map (cidOf c)) (cidOf c) o).1 :: tl, ?_, by simp [hlen]⟩
      show (runAll (processTarget st c o) rest).results = _
      rw [htl, processTarget_valid st c o hv]
      simp
    · have hv' : validTarget c = false := by revert hv; cases validTarget c <;> simp
      refine ⟨{ ok := false, reason := some "invalid-config" } :: tl, ?_, by simp [hlen]⟩
      show (runAll (processTarget st c o) rest).results = _
      rw [htl, processTarget_invalid st c o hv']
      simp

theorem runAll_dirty_iff : ∀ (items : List (ChatTarget × TargetOutcome)) (st : RunState)
    (m0 : MessageMap),
    (validCids items).Nodup →
    (∀ k ∈ validCids items, knownOf st.map k = knownOf m0 k) →
    ((st.dirty = true) ↔ ∃ k, knownOf st.map k ≠ knownOf m0 k) →
    objValues st.map →
    (((runAll st items).dirty = true) ↔
      ∃ k, knownOf (runAll st items).map k ≠ knownOf m0 k) := by
  intro items
  induction items with
  | nil => intro st m0 _ _ hiff _; exact hiff
  | cons it rest ih =>
    obtain ⟨c, o⟩ := it
    intro st m0 hnodup hagree hiff hobj
    by_cases hv : validTarget c = true
    · rw [validCids_cons_valid c o rest hv] at hnodup hagree
      rw [List.nodup_cons] at hnodup
      show ((runAll (processTarget st c o) rest).dirty = true) ↔ _
      refine ih (processTarget st c o) m0 hnodup.2 ?_ ?_ ?_
      · intro k hkrest
        have hkne : k ≠ cidOf c := fun hh => hnodup.1 (hh ▸ hkrest)
        have hlk : jsLookup (processTarget st c o).map k = jsLookup st.map k := by
          rw [processTarget_valid st c o hv]
          exact stepUpdate_lookup_ne _ _ _ _ _ k hkne
        rw [knownOf_congr _ _ k hlk]
        exact hagree k (List.mem_cons_of_mem _ hkrest)
      · simp only [processTarget_valid st c o hv]
        rcases stepUpdate_char st.map st.dirty (knownOf st.map (cidOf c)) (cidOf c)
            (stepCall (knownOf st.map (cidOf c)) (cidOf c) o).1 hobj with
          ⟨hm, hd⟩ | ⟨mid, hmid, hd, hkn, hkne, _⟩
        · simpa [hm, hd] using hiff
        · refine iff_of_true hd ⟨cidOf c, ?_⟩
          rw [hkn, ← hagree (cidOf c) (List.mem_cons_self _ _)]
          exact fun hh => hkne hh.symm
      · simp only [processTarget_valid st c o hv]
        exact stepUpdate_objValues _ _ _ _ _ hobj
    · have hv' : validTarget c = false := by revert hv; cases validTarget c <;> simp
      rw [validCids_cons_invalid c o rest hv'] at hnodup hagree
      show ((runAll (processTarget st c o) rest).dirty = true) ↔ _
      refine ih (processTarget st c o) m0 hnodup ?_ ?_ ?_
      · intro k hk
        simp only [processTarget_invalid st c o hv']
        exact hagree k hk
      · simp only [processTarget_invalid st c o hv']
        exact hiff
      · simp only [processTarget_invalid st c o hv']
        exact hobj

/-- C5: the end-of-run write is attempted exactly when some record's
`message_id` differs between the final and the loaded map, and what is
written is the whole map as an array of single-key records in sorted key
order. -/
theorem C5_persist_iff (m0 : MessageMap) (items : List (ChatTarget × TargetOutcome))
    (hnodup : (validCids items).Nodup) (hobj : objValues m0) :
    (saveAttempted (runChats m0 items) = true ↔
      ∃ k, knownOf (runChats m0 items).map k ≠ knownOf m0 k) ∧
    (saveAttempted (runChats m0 items) = true →
      saveMessageMap (runChats m0 items).map
        = some (Json.arr ((sortedKeys (runChats m0 items).map).map (fun k =>
            Json.obj [(k,
              saveRecordJson ((jsLookup (runChats m0 items).map k).getD Json.null))]))) ∧
      List.Sorted (fun a b => strLe a b = true) (sortedKeys (runChats m0 items).map)) := by
  constructor
  · exact runAll_dirty_iff items (initState m0) m0 hnodup (fun k _ => rfl)
      (iff_of_false (by simp [initState]) (by push_neg; exact fun k => rfl)) hobj
  · intro _
    have hobj' : objValues (runChats m0 items).map :=
      runAll_objValues items (initState m0) hobj
    constructor
    · have hnonull :
          ¬((runChats m0 items).map.any fun kv => decide (kv.2 = Json.null)) = true := by
        intro hany
        rw [List.any_eq_true] at hany
        obtain ⟨kv, hkv, hnull⟩ := hany
        simp only [decide_eq_true_eq] at hnull
        obtain ⟨fs, hfs⟩ := hobj' kv hkv
        rw [hfs] at hnull
        cases hnull
      unfold saveMessageMap
      rw [if_neg hnonull]
    · exact List.sorted_insertionSort _ _

theorem C5_witness :
    saveAttempted (runChats []
      [(⟨some "c", some "https://img", none, none⟩,
        ⟨NetOutcome.resp ⟨true, none, none, some (Json.num 7)⟩, NetOutcome.netErr⟩)]) = true :=
  (C5_persist_iff [] _ (by decide) (fun kv h => absurd h (List.not_mem_nil kv))).1.mpr
    ⟨"c", by decide⟩

theorem optJsonTruthy_some_getD (x : Option Json) (h : optJsonTruthy x = true) :
    some (x.getD Json.null) = x := by
  cases x with
  | none => cases h
  | some v => rfl

theorem stepUpdate_nofire (m : MessageMap) (d : Bool) (known : Option Json)
    (cid : String) (r : CallResult)
    (h : (if optJsonTruthy known = false then r.ok && optJsonTruthy r.message_id
          else r.ok && r.replaced && optJsonTruthy r.message_id) = false) :
    stepUpdate m d known cid r = (m, d) := by
  unfold stepUpdate
  by_cases hk : optJsonTruthy known = false
  · rw [if_pos hk] at h ⊢
    simp [h]
  · rw [if_neg hk] at h ⊢
    simp [h]

theorem stepUpdate_fire (m : MessageMap) (d : Bool) (known : Option Json)
    (cid : String) (r : CallResult) (hobj : objValues m)
    (h : (if optJsonTruthy known = false then r.ok && optJsonTruthy r.message_id
          else r.ok && r.replaced && optJsonTruthy r.message_id) = true) :
    knownOf (stepUpdate m d known cid r).1 cid = r.message_id := by
  have hmid : optJsonTruthy r.message_id = true := by
    by_cases hk : optJsonTruthy known = false
    · rw [if_pos hk] at h
      exact (Bool.and_eq_true_iff.mp h).2
    · rw [if_neg hk] at h
      exact (Bool.and_eq_true_iff.mp h).2
  have hmid' : jsTruthy (r.message_id.getD Json.null) = true := optJsonTruthy_getD _ hmid
  have hsome : some (r.message_id.getD Json.null) = r.message_id :=
    optJsonTruthy_some_getD _ hmid
  have hset : knownOf (setMessageIdM m d cid (r.message_id.getD Json.null)).1 cid
      = r.message_id := by
    rcases setMessageIdM_char m d cid (r.message_id.getD Json.null) hmid' hobj with
      ⟨hkn, hres⟩ | ⟨_, _, hkn, _⟩
    · rw [hres]
      show knownOf m cid = r.message_id
      rw [hkn, hsome]
    · rw [hkn, hsome]
  unfold stepUpdate
  by_cases hk : optJsonTruthy known = false
  · rw [if_pos hk] at h ⊢
    rw [if_pos h]
    exact hset
  · rw [if_neg hk] at h ⊢
    rw [if_pos h]
    exact hset

theorem getElem?_append_mid {α : Type} (l1 l2 : List α) (r : α) :
    (l1 ++ ([r] ++ l2))[l1.length]? = some r := by
  rw [List.getElem?_append_right (Nat.le_refl _)]
  simp

theorem run_target_view (m0 : MessageMap) (pre post : List (ChatTarget × TargetOutcome))
    (c : ChatTarget) (o : TargetOutcome)
    (hv : validTarget c = true)
    (hnodup : (validCids (pre ++ (c, o) :: post)).Nodup) :
    ((runChats m0 (pre ++ (c, o) :: post)).trace.filter
        (fun e => decide (eventChat e = cidOf c)))
      = (stepCall (knownOf m0 (cidOf c)) (cidOf c) o).2 ∧
    ((runChats m0 (pre ++ (c, o) :: post)).results[pre.length]?
      = some (stepCall (knownOf m0 (cidOf c)) (cidOf c) o).1) ∧
    (knownOf (runChats m0 (pre ++ (c, o) :: post)).map (cidOf c)
      = knownOf (processTarget (runAll (initState m0) pre) c o).map (cidOf c)) ∧
    (knownOf (runAll (initState m0) pre).map (cidOf c) = knownOf m0 (cidOf c)) := by
  rw [validCids_append, validCids_cons_valid c o post hv] at hnodup
  rw [List.nodup_append] at hnodup
  obtain ⟨hnpre, hncons, hdisj⟩ := hnodup
  have hpre : cidOf c ∉ validCids pre := fun hh => hdisj hh (List.mem_cons_self _ _)
  have hpost : cidOf c ∉ validCids post := (List.nodup_cons.mp hncons).1
  have hD : knownOf (runAll (initState m0) pre).map (cidOf c) = knownOf m0 (cidOf c) :=
    knownOf_congr _ _ _ (runAll_lookup_preserved pre (initState m0) (cidOf c) hpre)
  have hrun : runChats m0 (pre ++ (c, o) :: post)
      = runAll (processTarget (runAll (initState m0) pre) c o) post := by
    unfold runChats
    rw [show pre ++ (c, o) :: post = pre ++ ([(c, o)] ++ post) by simp,
      runAll_append, runAll_append]
    rfl
  have hstep := processTarget_valid (runAll (initState m0) pre) c o hv
  refine ⟨?_, ?_, ?_, hD⟩
  · obtain ⟨tlpre, htlpre, hmpre⟩ := runAll_trace_chats pre (initState m0)
    obtain ⟨tlpost, htlpost, hmpost⟩ :=
      runAll_trace_chats post (processTarget (runAll (initState m0) pre) c o)
    have htr : (runChats m0 (pre ++ (c, o) :: post)).trace
        = tlpre ++ ((stepCall (knownOf m0 (cidOf c)) (cidOf c) o).2 ++ tlpost) := by
      rw [hrun, htlpost]
      simp only [hstep]
      rw [htlpre, hD]
      simp [initState, List.append_assoc]
    have hftlpre : tlpre.filter (fun e => decide (eventChat e = cidOf c)) = [] := by
      rw [List.filter_eq_nil_iff]
      intro e he
      simp only [decide_eq_true_eq]
      exact fun heq => hpre (heq ▸ hmpre e he)
    have hftlpost : tlpost.filter (fun e => decide (eventChat e = cidOf c)) = [] := by
      rw [List.filter_eq_nil_iff]
      intro e he
      simp only [decide_eq_true_eq]
      exact fun heq => hpost (heq ▸ hmpost e he)
    have hfevs : ((stepCall (knownOf m0 (cidOf c)) (cidOf c) o).2).filter
        (fun e => decide (eventChat e = cidOf c))
        = (stepCall (knownOf m0 (cidOf c)) (cidOf c) o).2 := by
      rw [List.filter_eq_self]
      intro e he
      simp [stepCall_chat _ _ _ e he]
    rw [htr, List.filter_append, List.filter_append, hftlpre, hfevs, hftlpost]
    simp
  · obtain ⟨tlpreR, htpreR, hlpreR⟩ := runAll_results_shape pre (initState m0)
    obtain ⟨tlpostR, htpostR, _⟩ :=
      runAll_results_shape post (processTarget (runAll (initState m0) pre) c o)
    have hres : (runChats m0 (pre ++ (c, o) :: post)).results
        = tlpreR ++ ([(stepCall (knownOf m0 (cidOf c)) (cidOf c) o).1] ++ tlpostR) := by
      rw [hrun, htpostR]
      simp only [hstep]
      rw [htpreR, hD]
      simp [initState, List.append_assoc]
    rw [hres, show pre.length = tlpreR.length from hlpreR.symm]
    exact getElem?_append_mid tlpreR tlpostR _
  · rw [hrun]
    exact knownOf_congr _ _ _
      (runAll_lookup_preserved post (processTarget (runAll (initState m0) pre) c o)
        (cidOf c) hpost)

/-- C1: in a run whose valid targets have pairwise-distinct chat ids, a valid
target absent from the loaded map triggers exactly one send call and, on
success, a matching record is inserted; a valid target present in the map
triggers exactly one edit call before any send call, and a send call occurs
for it only after a qualifying failure (a 400 edit failure distinct from the
content-unchanged pattern). -/
theorem C1_send_edit_discipline (m0 : MessageMap)
    (pre post : List (ChatTarget × TargetOutcome)) (c : ChatTarget) (o : TargetOutcome)
    (hv : validTarget c = true)
    (hnodup : (validCids (pre ++ (c, o) :: post)).Nodup)
    (hobj : objValues m0) :
    (optJsonTruthy (knownOf m0 (cidOf c)) = false →
      (((runChats m0 (pre ++ (c, o) :: post)).trace.filter
          (fun e => decide (eventChat e = cidOf c))).countP isSendCall = 1) ∧
      (∀ j : ApiResponse, o.sendOut = NetOutcome.resp j → j.ok = true →
        optJsonTruthy j.result_message_id = true →
        knownOf (runChats m0 (pre ++ (c, o) :: post)).map (cidOf c)
          = j.result_message_id)) ∧
    (optJsonTruthy (knownOf m0 (cidOf c)) = true →
      (((runChats m0 (pre ++ (c, o) :: post)).trace.filter
          (fun e => decide (eventChat e = cidOf c))).countP isEditCall = 1) ∧
      (((runChats m0 (pre ++ (c, o) :: post)).trace.filter
          (fun e => decide (eventChat e = cidOf c))).head?
        = some (ApiEvent.editCall (cidOf c) ((knownOf m0 (cidOf c)).getD Json.null))) ∧
      (((runChats m0 (pre ++ (c, o) :: post)).trace.filter
          (fun e => decide (eventChat e = cidOf c))).countP isSendCall ≠ 0 →
        ∃ j, o.editOut = NetOutcome.resp j ∧ j.ok = false ∧ j.error_code = some 400 ∧
          notModifiedResp j = false)) := by
  obtain ⟨hA, hB, hC, hD⟩ := run_target_view m0 pre post c o hv hnodup
  have hobjPre : objValues (runAll (initState m0) pre).map :=
    runAll_objValues pre (initState m0) hobj
  constructor
  · intro hk
    have hcall : stepCall (knownOf m0 (cidOf c)) (cidOf c) o
        = sendPhotoM (cidOf c) o.sendOut := by
      unfold stepCall
      rw [if_pos hk]
    constructor
    · rw [hA, hcall]
      exact (sendPhotoM_facts _ _).2.1
    · intro j hjo hjok hjmid
      have hr : (stepCall (knownOf m0 (cidOf c)) (cidOf c) o).1
          = { ok := true, message_id := j.result_message_id } := by
        rw [hcall, hjo]
        simp [sendPhotoM, hjok]
      rw [hC, processTarget_valid _ c o hv]
      simp only [hD]
      rw [stepUpdate_fire _ _ _ _ _ hobjPre ?_, hr]
      rw [if_pos hk, hr]
      simp [hjmid]
  · intro hk
    have hk' : ¬optJsonTruthy (knownOf m0 (cidOf c)) = false := by rw [hk]; simp
    have hcall : stepCall (knownOf m0 (cidOf c)) (cidOf c) o
        = editPhotoM (cidOf c) ((knownOf m0 (cidOf c)).getD Json.null)
            o.editOut o.sendOut := by
      unfold stepCall
      rw [if_neg hk']
    obtain ⟨_, hedit, hsend, _, _, hhead, hqual⟩ :=
      editPhotoM_facts (cidOf c) ((knownOf m0 (cidOf c)).getD Json.null) o.editOut o.sendOut
    refine ⟨?_, ?_, ?_⟩
    · rw [hA, hcall]
      exact hedit
    · rw [hA, hcall]
      exact hhead
    · intro hnz
      rw [hA, hcall] at hnz
      rw [hsend] at hnz
      by_cases hrep : (editPhotoM (cidOf c) ((knownOf m0 (cidOf c)).getD Json.null)
          o.editOut o.sendOut).1.replaced = true
      · exact hqual hrep
      · rw [if_neg hrep] at hnz
        exact absurd rfl hnz

theorem C1_witness :
    ((runChats [] ([] ++ (⟨some "c", some "https://img", none, none⟩,
        ⟨NetOutcome.resp ⟨true, none, none, some (Json.num 7)⟩, NetOutcome.netErr⟩) :: [])).trace.filter
      (fun e => decide (eventChat e
        = cidOf ⟨some "c", some "https://img", none, none⟩))).countP isSendCall = 1 :=
  ((C1_send_edit_discipline [] [] []
      ⟨some "c", some "https://img", none, none⟩
      ⟨NetOutcome.resp ⟨true, none, none, some (Json.num 7)⟩, NetOutcome.netErr⟩
      (by decide) (by decide)
      (fun kv h => absurd h (List.not_mem_nil kv))).1 (by decide)).1

/-- C6 counterexample: a failing send produces zero pin attempts, and the
edit-400 fallback produces two message-send-or-edit attempts, so "exactly one
outbound attempt and exactly one pin attempt" does not hold as stated. -/
theorem C6_counterexample :
    ((runChats [] [(⟨some "c", some "https://img", none, none⟩,
        ⟨NetOutcome.resp ⟨false, some 500, some "err", none⟩,
          NetOutcome.netErr⟩)]).trace.countP isPinCall ≠ 1) ∧
    ((runChats [("c", Json.obj [("message_id", Json.num 1)])]
        [(⟨some "c", some "https://img", none, none⟩,
          ⟨NetOutcome.resp ⟨true, none, none, some (Json.num 2)⟩,
            NetOutcome.resp ⟨false, some 400,
              some "Bad Request: message to edit not found", none⟩⟩)]).trace.countP
      isMsgCall ≠ 1) :=
  ⟨by decide, by decide⟩

/-- C6 (amended): for each valid target (in a run whose valid targets have
distinct chat ids), the run produces exactly one primary send-or-edit attempt
plus a second send attempt exactly in the 400-fallback (`replaced`) case, a
pin attempt exactly when the target's result is success, and it updates the
persisted record when the platform returned a truthy message id for a fresh
or replaced message — leaving the record unchanged on a plain edit success. -/
theorem C6_target_contract (m0 : MessageMap)
    (pre post : List (ChatTarget × TargetOutcome)) (c : ChatTarget) (o : TargetOutcome)
    (hv : validTarget c = true)
    (hnodup : (validCids (pre ++ (c, o) :: post)).Nodup)
    (hobj : objValues m0) :
    ((runChats m0 (pre ++ (c, o) :: post)).results[pre.length]?
      = some (stepCall (knownOf m0 (cidOf c)) (cidOf c) o).1) ∧
    (((runChats m0 (pre ++ (c, o) :: post)).trace.filter
        (fun e => decide (eventChat e = cidOf c))).countP isMsgCall
      = if (stepCall (knownOf m0 (cidOf c)) (cidOf c) o).1.replaced then 2 else 1) ∧
    (((runChats m0 (pre ++ (c, o) :: post)).trace.filter
        (fun e => decide (eventChat e = cidOf c))).countP isPinCall
      = if (stepCall (knownOf m0 (cidOf c)) (cidOf c) o).1.ok then 1 else 0) ∧
    ((stepCall (knownOf m0 (cidOf c)) (cidOf c) o).1.replaced = true →
      ∃ j, o.editOut = NetOutcome.resp j ∧ j.ok = false ∧ j.error_code = some 400 ∧
        notModifiedResp j = false) ∧
    ((stepCall (knownOf m0 (cidOf c)) (cidOf c) o).1.ok = true →
      (stepCall (knownOf m0 (cidOf c)) (cidOf c) o).1.replaced = false →
      optJsonTruthy (knownOf m0 (cidOf c)) = true →
      knownOf (runChats m0 (pre ++ (c, o) :: post)).map (cidOf c)
        = knownOf m0 (cidOf c)) ∧
    ((stepCall (knownOf m0 (cidOf c)) (cidOf c) o).1.ok = true →
      optJsonTruthy (stepCall (knownOf m0 (cidOf c)) (cidOf c) o).1.message_id = true →
      (optJsonTruthy (knownOf m0 (cidOf c)) = false ∨
        (stepCall (knownOf m0 (cidOf c)) (cidOf c) o).1.replaced = true) →
      knownOf (runChats m0 (pre ++ (c, o) :: post)).map (cidOf c)
        = (stepCall (knownOf m0 (cidOf c)) (cidOf c) o).1.message_id) := by
  obtain ⟨hA, hB, hC, hD⟩ := run_target_view m0 pre post c o hv hnodup
  have hobjPre : objValues (runAll (initState m0) pre).map :=
    runAll_objValues pre (initState m0) hobj
  refine ⟨hB, ?_, ?_, ?_, ?_, ?_⟩
  · rw [hA]
    by_cases hk : optJsonTruthy (knownOf m0 (cidOf c)) = false
    · have hcall : stepCall (knownOf m0 (cidOf c)) (cidOf c) o
          = sendPhotoM (cidOf c) o.sendOut := by
        unfold stepCall
        rw [if_pos hk]
      rw [hcall, (sendPhotoM_facts _ _).2.2.2.1, (sendPhotoM_facts _ _).2.2.2.2.2]
      rfl
    · have hcall : stepCall (knownOf m0 (cidOf c)) (cidOf c) o
          = editPhotoM (cidOf c) ((knownOf m0 (cidOf c)).getD Json.null)
              o.editOut o.sendOut := by
        unfold stepCall
        rw [if_neg hk]
      rw [hcall]
      exact (editPhotoM_facts _ _ _ _).2.2.2.1
  · rw [hA]
    by_cases hk : optJsonTruthy (knownOf m0 (cidOf c)) = false
    · have hcall : stepCall (knownOf m0 (cidOf c)) (cidOf c) o
          = sendPhotoM (cidOf c) o.sendOut := by
        unfold stepCall
        rw [if_pos hk]
      rw [hcall]
      exact (sendPhotoM_facts _ _).2.2.2.2.1
    · have hcall : stepCall (knownOf m0 (cidOf c)) (cidOf c) o
          = editPhotoM (cidOf c) ((knownOf m0 (cidOf c)).getD Json.null)
              o.editOut o.sendOut := by
        unfold stepCall
        rw [if_neg hk]
      rw [hcall]
      exact (editPhotoM_facts _ _ _ _).2.2.2.2.1
  · intro hrep
    by_cases hk : optJsonTruthy (knownOf m0 (cidOf c)) = false
    · exfalso
      have hcall : stepCall (knownOf m0 (cidOf c)) (cidOf c) o
          = sendPhotoM (cidOf c) o.sendOut := by
        unfold stepCall
        rw [if_pos hk]
      rw [hcall, (sendPhotoM_facts _ _).2.2.2.2.2] at hrep
      cases hrep
    · have hcall : stepCall (knownOf m0 (cidOf c)) (cidOf c) o
          = editPhotoM (cidOf c) ((knownOf m0 (cidOf c)).getD Json.null)
              o.editOut o.sendOut := by
        unfold stepCall
        rw [if_neg hk]
      rw [hcall] at hrep
      exact (editPhotoM_facts _ _ _ _).2.2.2.2.2.2 hrep
  · intro hok hrep hk
    have hk' : ¬optJsonTruthy (knownOf m0 (cidOf c)) = false := by rw [hk]; simp
    rw [hC, processTarget_valid _ c o hv]
    simp only [hD]
    rw [stepUpdate_nofire _ _ _ _ _ ?_]
    · exact hD
    · rw [if_neg hk', hok, hrep]
      rfl
  · intro hok hmid hcase
    rw [hC, processTarget_valid _ c o hv]
    simp only [hD]
    rw [stepUpdate_fire _ _ _ _ _ hobjPre ?_]
    rcases hcase with hk | hrep
    · rw [if_pos hk, hok, hmid]
      rfl
    · by_cases hk : optJsonTruthy (knownOf m0 (cidOf c)) = false
      · rw [if_pos hk, hok, hmid]
        rfl
      · rw [if_neg hk, hok, hrep, hmid]
        rfl

theorem C6_witness :
    (runChats [] ([] ++ (⟨some "c", some "https://img", none, none⟩,
        ⟨NetOutcome.resp ⟨true, none, none, some (Json.num 7)⟩,
          NetOutcome.netErr⟩) :: [])).results[([] : List (ChatTarget × TargetOutcome)).length]?
      = some (stepCall
          (knownOf [] (cidOf ⟨some "c", some "https://img", none, none⟩))
          (cidOf ⟨some "c", some "https://img", none, none⟩)
          ⟨NetOutcome.resp ⟨true, none, none, some (Json.num 7)⟩, NetOutcome.netErr⟩).1 :=
  (C6_target_contract [] [] [] ⟨some "c", some "https://img", none, none⟩
      ⟨NetOutcome.resp ⟨true, none, none, some (Json.num 7)⟩, NetOutcome.netErr⟩
      (by decide) (by decide)
      (fun kv h => absurd h (List.not_mem_nil kv))).1

